import Mathlib

/-!
Verification development for the spending-insights engine
(aggregator, trigger detector, priority scorer, subscription detector).

Python strings are embedded as lists of character code points (`List Nat`);
Python floats are embedded as exact rationals (`ℚ`); `datetime` values are
embedded as integer day indices (the code only ever uses whole-day
differences of dates).  Coefficients of variation, which the source computes
as `std / mean * 100` with a floating-point square root, are embedded by the
equivalent squared comparisons (`var * 100^2 < thr^2 * mean^2` for positive
mean), which keeps every definition inside ℚ and decidable.
-/

/-- Code points of a Lean string literal, used to write down concrete Python
strings in the embedding. -/
def pystr (s : String) : List Nat := s.data.map Char.toNat

/-! ### ASCII character classes and case maps (Python `str` semantics) -/

/-- ASCII whitespace, the characters matched by `\s` on the inputs in scope. -/
def isSpaceC (c : Nat) : Bool := c = 32 || (9 ≤ c && c ≤ 13)

/-- ASCII uppercase letter. -/
def isUpperC (c : Nat) : Bool := 65 ≤ c && c ≤ 90

/-- ASCII lowercase letter. -/
def isLowerC (c : Nat) : Bool := 97 ≤ c && c ≤ 122

/-- ASCII letter: the "cased" characters for `str.title` word boundaries. -/
def isAlphaC (c : Nat) : Bool := isUpperC c || isLowerC c

/-- Word character `\w` (ASCII): letter, digit or underscore. -/
def isWordC (c : Nat) : Bool := isAlphaC c || (48 ≤ c && c ≤ 57) || c = 95

/-- ASCII digit. -/
def isDigitC (c : Nat) : Bool := 48 ≤ c && c ≤ 57

/-- `str.upper` on one character. -/
def upperC (c : Nat) : Nat := if isLowerC c then c - 32 else c

/-- `str.lower` on one character. -/
def lowerC (c : Nat) : Nat := if isUpperC c then c + 32 else c

def upperL (l : List Nat) : List Nat := l.map upperC

def lowerL (l : List Nat) : List Nat := l.map lowerC

/-- `str.title` on one character: a cased character is uppercased at a word
start (`prev = false`) and lowercased otherwise. -/
def titleC (prev : Bool) (c : Nat) : Nat :=
  if prev then lowerC c else if isAlphaC c then upperC c else c

/-- `str.title` worker: `prev` records whether the previous character was
cased. -/
def titleAux (prev : Bool) : List Nat → List Nat
  | [] => []
  | c :: cs => titleC prev c :: titleAux (isAlphaC c) cs

/-- Python `str.title`. -/
def titleL (l : List Nat) : List Nat := titleAux false l

/-- Drop leading whitespace (`str.lstrip`). -/
def dropLead : List Nat → List Nat
  | [] => []
  | c :: cs => if isSpaceC c then dropLead cs else c :: cs

/-- Drop trailing whitespace (`str.rstrip`). -/
def dropTrail : List Nat → List Nat
  | [] => []
  | c :: cs =>
      match dropTrail cs with
      | [] => if isSpaceC c then [] else [c]
      | r => c :: r

/-- Python `str.strip`. -/
def stripL (l : List Nat) : List Nat := dropLead (dropTrail l)

/-- Replace every maximal whitespace run by a single blank, the effect of
`re.sub` with the pattern "one or more whitespace characters" and a single
blank as replacement; `prev` records whether the previous kept character was
part of a whitespace run. -/
def collapseAux (prev : Bool) : List Nat → List Nat
  | [] => []
  | c :: cs =>
      if isSpaceC c then
        (if prev then [] else [32]) ++ collapseAux true cs
      else c :: collapseAux false cs

def collapseL (l : List Nat) : List Nat := collapseAux false l

/-! ### Generic stable insertion sort (Python `list.sort` semantics) -/

/-- Insert `a` in front of the first element `b` with `le a b`; with a
reflexive-on-equals `le` this yields a stable sort. -/
def sInsert (le : α → α → Bool) (a : α) : List α → List α
  | [] => [a]
  | b :: l => if le a b then a :: b :: l else b :: sInsert le a l

/-- Stable sort with respect to `le` (Python's `list.sort` with the
corresponding key). -/
def sSort (le : α → α → Bool) (l : List α) : List α :=
  l.foldr (sInsert le) []

theorem sInsert_perm (le : α → α → Bool) (a : α) (m : List α) :
    List.Perm (sInsert le a m) (a :: m) := by
  induction m with
  | nil => simp [sInsert]
  | cons c r ihm =>
      by_cases hc : le a c = true
      · simp [sInsert, hc]
      · simp only [sInsert, hc, if_neg, Bool.false_eq_true, not_false_iff]
        exact (List.Perm.cons c ihm).trans (List.Perm.swap a c r)

theorem sSort_perm (le : α → α → Bool) (l : List α) :
    List.Perm (sSort le l) l := by
  induction l with
  | nil => simp [sSort]
  | cons b t ih =>
      simp only [sSort, List.foldr] at *
      exact (sInsert_perm le b _).trans (List.Perm.cons b ih)

theorem mem_sInsert (le : α → α → Bool) (a x : α) (l : List α) :
    x ∈ sInsert le a l ↔ x = a ∨ x ∈ l := by
  rw [(sInsert_perm le a l).mem_iff]
  simp

theorem mem_sSort (le : α → α → Bool) (x : α) (l : List α) :
    x ∈ sSort le l ↔ x ∈ l :=
  (sSort_perm le l).mem_iff

/-- Sorting a list that is already pairwise `le`-ordered returns it
unchanged. -/
theorem sSort_of_chain (le : α → α → Bool) (l : List α)
    (h : List.Chain' (fun a b => le a b = true) l) : sSort le l = l := by
  induction l with
  | nil => rfl
  | cons b t ih =>
      have ht : List.Chain' (fun a b => le a b = true) t := h.tail
      simp only [sSort, List.foldr]
      have : List.foldr (sInsert le) [] t = t := ih ht
      rw [this]
      cases t with
      | nil => rfl
      | cons c r =>
          have hbc : le b c = true := (List.chain'_cons.1 h).1
          simp [sInsert, hbc]

/-! ### Insertion-ordered key list (Python `dict` key order) -/

/-- Keys in order of first occurrence, as produced by inserting into a
Python `dict`. -/
def firstDedup [DecidableEq α] (l : List α) : List α :=
  l.foldl (fun acc a => if a ∈ acc then acc else acc ++ [a]) []

theorem firstDedup_aux_mem [DecidableEq α] (l acc : List α) (x : α) :
    x ∈ l.foldl (fun acc a => if a ∈ acc then acc else acc ++ [a]) acc ↔
      x ∈ acc ∨ x ∈ l := by
  induction l generalizing acc with
  | nil => simp
  | cons b t ih =>
      simp only [List.foldl]
      by_cases hb : b ∈ acc
      · rw [if_pos hb, ih]
        constructor
        · rintro (h | h)
          · exact Or.inl h
          · exact Or.inr (List.mem_cons_of_mem b h)
        · rintro (h | h)
          · exact Or.inl h
          · rcases List.mem_cons.1 h with h | h
            · exact Or.inl (h ▸ hb)
            · exact Or.inr h
      · rw [if_neg hb, ih]
        simp
        tauto

theorem mem_firstDedup [DecidableEq α] (l : List α) (x : α) :
    x ∈ firstDedup l ↔ x ∈ l := by
  unfold firstDedup
  rw [firstDedup_aux_mem]
  simp

theorem firstDedup_aux_nodup [DecidableEq α] (l acc : List α)
    (h : acc.Nodup) :
    (l.foldl (fun acc a => if a ∈ acc then acc else acc ++ [a]) acc).Nodup := by
  induction l generalizing acc with
  | nil => simpa
  | cons b t ih =>
      simp only [List.foldl]
      by_cases hb : b ∈ acc
      · rw [if_pos hb]; exact ih acc h
      · rw [if_neg hb]
        refine ih _ ?_
        simp [List.nodup_append, h, hb]

theorem firstDedup_nodup [DecidableEq α] (l : List α) :
    (firstDedup l).Nodup :=
  firstDedup_aux_nodup l [] List.nodup_nil

/-! ### Data model: Trigger (app/models.py)

`raw_data` is an open dictionary in the source; only the three keys the
scorer reads (`milestone`, `streak_length`, `trend_direction`) are modelled,
as optional fields.  Display-only entries (date ranges, week labels) and the
fields the scorer never reads are not modelled. -/

structure Trigger where
  type : String
  category : Option String := none
  merchant : Option String := none
  this_month : Option ℚ := none
  last_month : Option ℚ := none
  average : Option ℚ := none
  percent_change : Option ℚ := none
  dollar_change : Option ℚ := none
  visit_count : Option ℚ := none
  rawMilestone : Option ℚ := none
  rawStreakLength : Option ℚ := none
  rawTrendDirection : Option String := none
  deriving DecidableEq, Repr

/-- Python truthiness of an optional number (`None` and `0` are falsy). -/
def truthyQ : Option ℚ → Bool
  | none => false
  | some x => x ≠ 0

/-- Python truthiness of an optional string (`None` and `""` are falsy). -/
def truthyS : Option String → Bool
  | none => false
  | some s => s ≠ ""

/-! ### ComprehensivePriorityScorer (insights/comprehensive_priority_scorer.py) -/

def NON_ACTIONABLE_CATEGORIES : List String :=
  ["Rent", "rent", "Housing", "housing", "Mortgage", "mortgage",
   "Utilities", "utilities", "Electric", "electric", "Electricity",
   "electricity", "Water", "water", "Gas", "gas", "Internet", "internet",
   "Phone", "phone", "Insurance", "insurance", "Health Insurance",
   "health insurance", "Car Insurance", "car insurance", "Home Insurance",
   "home insurance", "Life Insurance", "life insurance", "Loan", "loan",
   "Loans", "loans", "Student Loan", "student loan", "Car Loan", "car loan",
   "Mortgage Payment", "mortgage payment", "HOA", "hoa", "HOA Fees",
   "hoa fees", "Property Tax", "property tax", "Taxes", "taxes"]

/-- Static type → priority-tier table (`_define_priority_rules`); the
lookup default for unknown types is MEDIUM (3). -/
def priorityRules (t : String) : Nat :=
  if t = "all_time_high_spending" then 1
  else if t = "lifestyle_inflation" then 1
  else if t = "monthly_spending_spike" then 2
  else if t = "category_all_time_high" then 2
  else if t = "year_over_year_change" then 2
  else if t = "category_year_over_year" then 2
  else if t = "six_month_sustained_trend" then 2
  else if t = "new_significant_merchant" then 2
  else if t = "weekly_spending_spike" then 3
  else if t = "weekly_category_spike" then 3
  else if t = "category_above_average" then 3
  else if t = "quarterly_trend_increase" then 3
  else if t = "quarterly_trend_decrease" then 3
  else if t = "three_month_sustained_trend" then 3
  else if t = "category_rolling_trend" then 3
  else if t = "weekend_warrior" then 3
  else if t = "weekday_spender" then 3
  else if t = "category_dominance" then 3
  else if t = "seasonal_high_spend_month" then 4
  else if t = "holiday_season_pattern" then 4
  else if t = "merchant_loyalty" then 4
  else if t = "lifetime_spending_milestone" then 4
  else if t = "merchant_lifetime_milestone" then 4
  else if t = "annual_growth_rate" then 4
  else if t = "weekly_spending_win" then 3
  else if t = "monthly_spending_win" then 3
  else if t = "all_time_low_spending" then 2
  else if t = "savings_streak" then 3
  else if t = "income_positive_streak" then 2
  else if t = "category_improvement_trend" then 3
  else if t = "overall_improvement_trend" then 2
  else 3

/-- `_get_priority_level` with its dynamic escalation rules. -/
def getPriorityLevel (t : Trigger) : Nat :=
  if t.type = "monthly_spending_spike" ∧ truthyQ t.percent_change = true ∧
      (t.percent_change.getD 0) > 50 then 1
  else if t.type = "year_over_year_change" ∧ truthyQ t.percent_change = true ∧
      (t.percent_change.getD 0) > 50 then 1
  else if t.type = "six_month_sustained_trend" ∧
      t.rawTrendDirection.getD "" = "increasing" then 2
  else priorityRules t.type

/-- `_calculate_magnitude`: capped contributions of each numeric field
(`raw_data` presence, not truthiness, gates the milestone and streak
terms, matching the source's `in` checks). -/
def calculateMagnitude (t : Trigger) : ℚ :=
  (if truthyQ t.percent_change then min (t.percent_change.getD 0) 200 else 0)
  + (if truthyQ t.dollar_change then min ((t.dollar_change.getD 0) / 10) 200
     else 0)
  + (if truthyQ t.this_month then min ((t.this_month.getD 0) / 20) 100 else 0)
  + (if truthyQ t.visit_count then min ((t.visit_count.getD 0) * 2) 50 else 0)
  + (if t.rawMilestone.isSome then min ((t.rawMilestone.getD 0) / 100) 300
     else 0)
  + (if t.rawStreakLength.isSome then (t.rawStreakLength.getD 0) * 30 else 0)

/-- Final score: `(5 - priority) * 1000 + magnitude`. -/
def finalScore (t : Trigger) : ℚ :=
  (5 - (getPriorityLevel t : ℚ)) * 1000 + calculateMagnitude t

/-- A scored trigger as carried through the scorer:
(trigger, final score, priority level). -/
abbrev SEntry := Trigger × ℚ × Nat

/-- `_is_actionable_category` combined with the step-0 filter condition
`not t.category or self._is_actionable_category(t.category)`. -/
def actionableB (t : Trigger) : Bool :=
  !truthyS t.category || decide (t.category.getD "" ∉ NON_ACTIONABLE_CATEGORIES)

def positiveTypes : List String :=
  ["weekly_spending_win", "monthly_spending_win", "all_time_low_spending",
   "savings_streak", "income_positive_streak", "category_improvement_trend",
   "overall_improvement_trend"]

def weeklyTypes : List String :=
  ["weekly_spending_spike", "weekly_category_spike"]

def monthlyTypes : List String :=
  ["monthly_spending_spike", "category_above_average"]

/-- Sort key used inside `_deduplicate`:
ascending (priority, -score), stable. -/
def lePrioScore (a b : SEntry) : Bool :=
  a.2.2 < b.2.2 || (a.2.2 = b.2.2 && b.2.1 ≤ a.2.1)

/-- Sort key for `sort(key=score, reverse=True)`: descending score, stable. -/
def leScoreDesc (a b : SEntry) : Bool := b.2.1 ≤ a.2.1

/-- Building a `dict` of lists by appending each element to the list of its
key yields the keys in first-occurrence order, each carrying the sublist of
elements with that key in encounter order; this is that result, written
directly. -/
def groupsBy (key : α → String) (l : List α) : List (String × List α) :=
  (firstDedup (l.map key)).map (fun k => (k, l.filter (fun e => key e = k)))

/-- Entries routed to the category dictionary in `_deduplicate`
(`if trigger.category:`). -/
def catEntries (scored : List SEntry) : List SEntry :=
  scored.filter (fun e => truthyS e.1.category)

/-- Entries routed to the merchant dictionary (`elif trigger.merchant:`). -/
def merchEntries (scored : List SEntry) : List SEntry :=
  scored.filter (fun e => !truthyS e.1.category && truthyS e.1.merchant)

/-- Ungrouped entries (`else` branch). -/
def generalEntries (scored : List SEntry) : List SEntry :=
  scored.filter (fun e => !truthyS e.1.category && !truthyS e.1.merchant)

/-- The three-way grouping pass of `_deduplicate`: category groups (for
entries with truthy category), merchant groups (truthy merchant, falsy
category), and the ungrouped rest, all in insertion order. -/
def dedupGroups (scored : List SEntry) :
    List (String × List SEntry) × List (String × List SEntry) × List SEntry :=
  (groupsBy (fun e => e.1.category.getD "") (catEntries scored),
   groupsBy (fun e => e.1.merchant.getD "") (merchEntries scored),
   generalEntries scored)

/-- Per-category processing in `_deduplicate`: sort by (priority, -score);
if the group has more than one entry and contains a monthly-granularity
type, drop the weekly-granularity types; keep at most two entries. -/
def processCategoryGroup (g : List SEntry) : List SEntry :=
  let sorted := sSort lePrioScore g
  let sorted :=
    if 1 < sorted.length ∧ sorted.any (fun e => e.1.type ∈ monthlyTypes) then
      sorted.filter (fun e => e.1.type ∉ weeklyTypes)
    else sorted
  sorted.take 2

/-- `_deduplicate`. -/
def deduplicate (scored : List SEntry) : List SEntry :=
  if scored.length ≤ 1 then scored
  else
    let (catGroups, merchGroups, general) := dedupGroups scored
    (catGroups.map (fun g => processCategoryGroup g.2)).flatten
      ++ (merchGroups.map (fun g => (sSort lePrioScore g.2).take 1)).flatten
      ++ general

/-- The category-diversity pass at the end of `_ensure_diversity`: walk the
list in order, skipping entries whose (truthy) category already occurred
twice. -/
def categoryDiversity (l : List SEntry) : List SEntry :=
  (l.foldl
    (fun (acc : List SEntry × List (String × Nat)) e =>
      if truthyS e.1.category then
        let c := e.1.category.getD ""
        let n := ((acc.2.lookup c).getD 0)
        if 2 ≤ n then acc
        else (acc.1 ++ [e], (c, n + 1) :: acc.2)
      else (acc.1 ++ [e], acc.2))
    ([], [])).1

/-- `_ensure_diversity`.  The timeframe counting at the end of the source
method computes counts it never uses, so it is not modelled. -/
def ensureDiversity (scored : List SEntry) (topN : Nat) : List SEntry :=
  let positives := scored.filter (fun e => e.1.type ∈ positiveTypes)
  let others := scored.filter (fun e => e.1.type ∉ positiveTypes)
  let swap : Bool := positives ≠ [] &&
    !((scored.take topN).any (fun e => e.1.type ∈ positiveTypes))
  let positives := if swap then sSort leScoreDesc positives else positives
  let others := if swap then sSort leScoreDesc others else others
  let others :=
    if swap ∧ topN ≤ others.length then
      others.take (topN - 1) ++ positives.take 1
    else others
  let final := sSort leScoreDesc (others ++ positives)
  categoryDiversity final

/-- `score_and_rank`: filter actionable triggers, score, deduplicate,
ensure diversity, sort by score descending and keep the top N. -/
def scoreAndRank (triggers : List Trigger) (topN : Nat) :
    List (Trigger × ℚ) :=
  if triggers.filter actionableB = [] then []
  else
    ((sSort leScoreDesc
        (ensureDiversity
          (deduplicate
            ((triggers.filter actionableB).map
              (fun t => (t, finalScore t, getPriorityLevel t))))
          topN)).take topN).map (fun e => (e.1, e.2.1))


/-! ### Claim C1: positive-insight guarantee of `score_and_rank` -/

/-- A positive-type trigger with a low score that the grouping pass places
at the head of the deduplicated list. -/
def c1Pos : Trigger := { type := "weekly_spending_win", category := some "Food" }

def c1Gen1 : Trigger := { type := "all_time_high_spending" }

def c1Gen2 : Trigger := { type := "lifestyle_inflation" }

def c1Triggers : List Trigger := [c1Pos, c1Gen1, c1Gen2]

/-- Full evaluation of `score_and_rank` on the C1 failing input. -/
theorem c1_run : scoreAndRank c1Triggers 1 = [(c1Gen1, 4000)] := by
  have hp1 : getPriorityLevel c1Pos = 3 := by decide
  have hp2 : getPriorityLevel c1Gen1 = 1 := by decide
  have hp3 : getPriorityLevel c1Gen2 = 1 := by decide
  have hm1 : calculateMagnitude c1Pos = 0 := by
    norm_num [calculateMagnitude, c1Pos, truthyQ]
  have hm2 : calculateMagnitude c1Gen1 = 0 := by
    norm_num [calculateMagnitude, c1Gen1, truthyQ]
  have hm3 : calculateMagnitude c1Gen2 = 0 := by
    norm_num [calculateMagnitude, c1Gen2, truthyQ]
  have hb1 : finalScore c1Pos = 2000 := by
    rw [finalScore, hp1, hm1]; norm_num
  have hb2 : finalScore c1Gen1 = 4000 := by
    rw [finalScore, hp2, hm2]; norm_num
  have hb3 : finalScore c1Gen2 = 4000 := by
    rw [finalScore, hp3, hm3]; norm_num
  have hf : c1Triggers.filter actionableB = c1Triggers := by decide
  have hmap : c1Triggers.map (fun t => (t, finalScore t, getPriorityLevel t))
      = [(c1Pos, 2000, 3), (c1Gen1, 4000, 1), (c1Gen2, 4000, 1)] := by
    simp only [c1Triggers, List.map, hb1, hb2, hb3, hp1, hp2, hp3]
  have hded : deduplicate [(c1Pos, 2000, 3), (c1Gen1, 4000, 1),
      (c1Gen2, 4000, 1)] = [(c1Pos, 2000, 3), (c1Gen1, 4000, 1),
      (c1Gen2, 4000, 1)] := by decide
  have hdiv : ensureDiversity [(c1Pos, 2000, 3), (c1Gen1, 4000, 1),
      (c1Gen2, 4000, 1)] 1 = [(c1Gen1, 4000, 1), (c1Gen2, 4000, 1),
      (c1Pos, 2000, 3)] := by decide
  have hsort : sSort leScoreDesc [((c1Gen1:Trigger), (4000:ℚ), (1:Nat)),
      (c1Gen2, 4000, 1), (c1Pos, 2000, 3)] = [(c1Gen1, 4000, 1),
      (c1Gen2, 4000, 1), (c1Pos, 2000, 3)] := by decide
  rw [scoreAndRank, hf, hmap, hded, hdiv, hsort,
    if_neg (by decide : ¬ (c1Triggers = []))]
  decide

/-- C1 (code bug): the input holds one positive-type trigger and two
(more than `top_n = 1`) non-positive triggers, yet the returned top-1 list
holds no positive-type trigger.  `_ensure_diversity` tests the first
`top_n` entries of the *unsorted* deduplicated list; the positive trigger
sits there in grouping order, so the guard concludes a positive insight is
already placed and skips the swap, after which the final sort by score
pushes the positive trigger out of the top N -- contradicting the method's
own stated purpose ("at least one positive insight") and the spec's
diversity guarantee. -/
theorem c1_diversity_guarantee_fails :
    (∃ t ∈ c1Triggers, t.type ∈ positiveTypes) ∧
      1 < (c1Triggers.filter (fun t => t.type ∉ positiveTypes)).length ∧
      (scoreAndRank c1Triggers 1).map (fun p => p.1.type)
        = ["all_time_high_spending"] ∧
      ∀ p ∈ scoreAndRank c1Triggers 1, p.1.type ∉ positiveTypes := by
  rw [c1_run]
  exact ⟨⟨c1Pos, by decide, by decide⟩, by decide, by decide, by decide⟩

/-! ### Claim C9: tier dominance of the final score -/

def c9A : Trigger := { type := "all_time_high_spending" }

def c9B : Trigger := { type := "savings_streak", rawStreakLength := some 100 }

/-- C9 counterexample: the streak term of the magnitude is uncapped, so a
tier-3 trigger with a long streak outscores a tier-1 trigger; a strictly
better (lower) tier does not imply a strictly higher final score. -/
theorem c9_tier_dominance_fails :
    getPriorityLevel c9A < getPriorityLevel c9B ∧
      ¬ finalScore c9A > finalScore c9B := by
  have hpa : getPriorityLevel c9A = 1 := by decide
  have hpb : getPriorityLevel c9B = 3 := by decide
  have hma : calculateMagnitude c9A = 0 := by
    norm_num [calculateMagnitude, c9A, truthyQ]
  have hmb : calculateMagnitude c9B = 3000 := by
    norm_num [calculateMagnitude, c9B, truthyQ]
  have hsa : finalScore c9A = 4000 := by rw [finalScore, hpa, hma]; norm_num
  have hsb : finalScore c9B = 5000 := by rw [finalScore, hpb, hmb]; norm_num
  rw [hpa, hpb, hsa, hsb]
  norm_num

/-- C9 (amended): tier dominates whenever the worse-tier trigger's magnitude
does not exceed the better-tier trigger's magnitude by 1000 or more (the
non-streak magnitude terms are capped, but the streak term is not, and a
negative percent or dollar change lowers a magnitude without bound); within
one tier the score order is exactly the magnitude order. -/
theorem c9_tier_dominance_amended (a b : Trigger) :
    (getPriorityLevel a < getPriorityLevel b →
      calculateMagnitude b - calculateMagnitude a < 1000 →
      finalScore a > finalScore b) ∧
    (getPriorityLevel a = getPriorityLevel b →
      (finalScore a > finalScore b ↔
        calculateMagnitude a > calculateMagnitude b)) := by
  constructor
  · intro hp hm
    unfold finalScore
    have : (getPriorityLevel a : ℚ) + 1 ≤ (getPriorityLevel b : ℚ) := by
      exact_mod_cast Nat.succ_le_of_lt hp
    linarith
  · intro hp
    unfold finalScore
    rw [hp]
    constructor <;> intro h <;> linarith

def c9WitA : Trigger := { type := "all_time_high_spending" }

def c9WitB : Trigger := { type := "merchant_loyalty", visit_count := some 5 }

theorem c9_tier_dominance_witness :
    getPriorityLevel c9WitA < getPriorityLevel c9WitB ∧
      finalScore c9WitA > finalScore c9WitB :=
  ⟨by decide,
    (c9_tier_dominance_amended c9WitA c9WitB).1 (by decide)
      (by norm_num [calculateMagnitude, c9WitA, c9WitB, truthyQ])⟩

/-! ### Claim C8: weekly vs monthly deduplication -/

theorem one_lt_length_of_two_mem {l : List α} {x y : α}
    (hx : x ∈ l) (hy : y ∈ l) (hxy : x ≠ y) : 1 < l.length := by
  cases l with
  | nil => simp at hx
  | cons a t =>
      cases t with
      | nil =>
          simp at hx hy
          exact absurd (hx.trans hy.symm) hxy
      | cons b r => simp

theorem groupsBy_mem_elim {key : α → String} {l : List α}
    {k : String} {g : List α} (h : (k, g) ∈ groupsBy key l) :
    g = l.filter (fun e => key e = k) := by
  unfold groupsBy at h
  rcases List.mem_map.1 h with ⟨k', _, hk⟩
  have h1 : k' = k := congrArg Prod.fst hk
  have h2 := congrArg Prod.snd hk
  simp at h2
  rw [← h2, h1]

theorem groupsBy_mem_intro {key : α → String} {l : List α} {k : String}
    (h : ∃ e ∈ l, key e = k) :
    (k, l.filter (fun e => key e = k)) ∈ groupsBy key l := by
  unfold groupsBy
  refine List.mem_map.2 ⟨k, ?_, rfl⟩
  rw [mem_firstDedup]
  rcases h with ⟨e, he, hk⟩
  exact List.mem_map.2 ⟨e, he, hk⟩

theorem mem_of_mem_processCategoryGroup {g : List SEntry} {x : SEntry}
    (h : x ∈ processCategoryGroup g) : x ∈ g := by
  unfold processCategoryGroup at h
  have h1 := List.mem_of_mem_take h
  by_cases hc : 1 < (sSort lePrioScore g).length ∧
      (sSort lePrioScore g).any (fun e => decide (e.1.type ∈ monthlyTypes))
  · rw [if_pos hc] at h1
    exact (mem_sSort _ _ _).1 (List.mem_of_mem_filter h1)
  · rw [if_neg hc] at h1
    exact (mem_sSort _ _ _).1 h1

/-- Membership in the deduplicated list, split along the three parts. -/
theorem mem_deduplicate_elim {L : List SEntry} {x : SEntry}
    (hL : 1 < L.length) (h : x ∈ deduplicate L) :
    (∃ k g, (k, g) ∈ groupsBy (fun e => e.1.category.getD "")
        (catEntries L) ∧ x ∈ processCategoryGroup g) ∨
    (∃ k g, (k, g) ∈ groupsBy (fun e => e.1.merchant.getD "")
        (merchEntries L) ∧ x ∈ (sSort lePrioScore g).take 1) ∨
    x ∈ generalEntries L := by
  unfold deduplicate at h
  rw [if_neg (by omega)] at h
  simp only [dedupGroups] at h
  rcases List.mem_append.1 h with h' | h'
  · rcases List.mem_append.1 h' with h'' | h''
    · left
      rcases List.mem_flatten.1 h'' with ⟨sub, hsub, hx⟩
      rcases List.mem_map.1 hsub with ⟨⟨k, g⟩, hkg, rfl⟩
      exact ⟨k, g, hkg, hx⟩
    · right; left
      rcases List.mem_flatten.1 h'' with ⟨sub, hsub, hx⟩
      rcases List.mem_map.1 hsub with ⟨⟨k, g⟩, hkg, rfl⟩
      exact ⟨k, g, hkg, hx⟩
  · right; right; exact h'

/-- Category key used by the grouping pass. -/
def catKeyOf (e : SEntry) : String := e.1.category.getD ""

theorem mem_dedup_cat_elim {L : List SEntry} {x : SEntry}
    (hL : 1 < L.length) (hx : x ∈ deduplicate L)
    (ht : truthyS x.1.category = true) :
    x ∈ processCategoryGroup
      ((catEntries L).filter (fun e => catKeyOf e = catKeyOf x)) := by
  rcases mem_deduplicate_elim hL hx with ⟨k, g, hkg, hxg⟩ | ⟨k, g, hkg, hxg⟩ | hg
  · have hgeq := groupsBy_mem_elim hkg
    have hxg' := mem_of_mem_processCategoryGroup hxg
    rw [hgeq] at hxg'
    have hk : catKeyOf x = k := by
      have := List.of_mem_filter hxg'
      simpa [catKeyOf] using this
    rw [hgeq, ← hk] at hxg
    simpa [catKeyOf] using hxg
  · have hgeq := groupsBy_mem_elim hkg
    have hxg' : x ∈ g := (mem_sSort _ _ _).1 (List.mem_of_mem_take hxg)
    rw [hgeq] at hxg'
    have h1 : x ∈ merchEntries L := List.mem_of_mem_filter hxg'
    rw [merchEntries] at h1
    have h2 := List.of_mem_filter h1
    simp [ht] at h2
  · rw [generalEntries] at hg
    have h2 := List.of_mem_filter hg
    simp [ht] at h2

theorem mem_dedup_cat_intro {L : List SEntry} {x : SEntry} {k : String}
    (hL : 1 < L.length)
    (hk : ∃ e ∈ catEntries L, catKeyOf e = k)
    (hx : x ∈ processCategoryGroup
      ((catEntries L).filter (fun e => catKeyOf e = k))) :
    x ∈ deduplicate L := by
  unfold deduplicate
  rw [if_neg (by omega)]
  simp only [dedupGroups]
  refine List.mem_append.2 (Or.inl (List.mem_append.2 (Or.inl ?_)))
  refine List.mem_flatten.2 ⟨processCategoryGroup
    ((catEntries L).filter (fun e => catKeyOf e = k)), ?_, hx⟩
  refine List.mem_map.2 ⟨(k, (catEntries L).filter (fun e => catKeyOf e = k)),
    ?_, rfl⟩
  exact groupsBy_mem_intro hk

theorem c8_dedup_amended (L : List SEntry) (c : String) (w m : SEntry)
    (hc : c ≠ "")
    (hwL : w ∈ L) (hmL : m ∈ L)
    (hwc : w.1.category = some c) (hmc : m.1.category = some c)
    (hwt : w.1.type = "weekly_category_spike")
    (hmt : m.1.type = "monthly_spending_spike") :
    w ∉ deduplicate L ∧
      (m ∈ deduplicate L ↔
        m ∈ ((sSort lePrioScore
            (L.filter (fun e => e.1.category = some c))).filter
              (fun e => e.1.type ∉ weeklyTypes)).take 2) := by
  have hwm : w ≠ m := by
    intro h
    rw [h] at hwt
    exact absurd (hwt.symm.trans hmt) (by decide)
  have hL : 1 < L.length := one_lt_length_of_two_mem hwL hmL hwm
  have htw : truthyS w.1.category = true := by simp [truthyS, hwc, hc]
  have htm : truthyS m.1.category = true := by simp [truthyS, hmc, hc]
  have hKw : catKeyOf w = c := by simp [catKeyOf, hwc]
  have hKm : catKeyOf m = c := by simp [catKeyOf, hmc]
  have hGeq : (catEntries L).filter (fun e => catKeyOf e = c)
      = L.filter (fun e => e.1.category = some c) := by
    rw [catEntries, List.filter_filter]
    refine List.filter_congr ?_
    intro e _
    cases hcat : e.1.category with
    | none => simp [truthyS, hcat, catKeyOf, Ne.symm hc]
    | some s =>
        by_cases hs : s = c
        · subst hs
          simp [truthyS, hcat, catKeyOf, hc]
        · simp [truthyS, hcat, catKeyOf, hs]
  have hwG : w ∈ L.filter (fun e => e.1.category = some c) :=
    List.mem_filter.2 ⟨hwL, by simp [hwc]⟩
  have hmG : m ∈ L.filter (fun e => e.1.category = some c) :=
    List.mem_filter.2 ⟨hmL, by simp [hmc]⟩
  have hGlen2 : 1 < (L.filter (fun e => e.1.category = some c)).length :=
    one_lt_length_of_two_mem hwG hmG hwm
  have hcond : 1 < (sSort lePrioScore
        (L.filter (fun e => e.1.category = some c))).length ∧
      (sSort lePrioScore (L.filter (fun e => e.1.category = some c))).any
        (fun e => e.1.type ∈ monthlyTypes) := by
    constructor
    · rw [(sSort_perm _ _).length_eq]
      exact hGlen2
    · refine List.any_eq_true.2 ⟨m, (mem_sSort _ _ _).2 hmG, ?_⟩
      rw [hmt]
      decide
  have hPCG : processCategoryGroup (L.filter (fun e => e.1.category = some c))
      = ((sSort lePrioScore
          (L.filter (fun e => e.1.category = some c))).filter
            (fun e => e.1.type ∉ weeklyTypes)).take 2 := by
    simp only [processCategoryGroup]
    rw [if_pos hcond]
  constructor
  · intro hw
    have hcls := mem_dedup_cat_elim hL hw htw
    rw [hKw, hGeq, hPCG] at hcls
    have := (List.mem_filter.1 (List.mem_of_mem_take hcls)).2
    simp [hwt, weeklyTypes] at this
  · constructor
    · intro hm'
      have hcls := mem_dedup_cat_elim hL hm' htm
      rw [hKm, hGeq, hPCG] at hcls
      exact hcls
    · intro hm'
      refine mem_dedup_cat_intro hL
        ⟨w, ?_, hKw⟩ ?_
      · rw [catEntries]
        exact List.mem_filter.2 ⟨hwL, htw⟩
      · rw [hGeq, hPCG]
        exact hm'

def c8W : Trigger :=
  { type := "weekly_category_spike", category := some "Dining",
    percent_change := some 60 }

def c8M : Trigger :=
  { type := "monthly_spending_spike", category := some "Dining",
    percent_change := some 31 }

def c8A : Trigger :=
  { type := "category_all_time_high", category := some "Dining",
    percent_change := some 200 }

def c8B : Trigger :=
  { type := "category_year_over_year", category := some "Dining",
    percent_change := some 150 }

/-- The four C8 triggers as scored by the pipeline. -/
def c8Entries : List SEntry :=
  [(c8W, 2060, 3), (c8M, 3031, 2), (c8A, 3200, 2), (c8B, 3150, 2)]

/-- C8 counterexample: a weekly_category_spike and a monthly_spending_spike
share the category Dining; deduplication drops the weekly trigger as
claimed, but the monthly trigger is *not* retained: two better-scored
same-category triggers fill the per-category quota of two, so the claim's
"retains the monthly_spending_spike" fails. -/
theorem c8_monthly_not_retained :
    ([c8W, c8M, c8A, c8B].map (fun t => (t, finalScore t, getPriorityLevel t))
        = c8Entries) ∧
      c8W.category = some "Dining" ∧ c8M.category = some "Dining" ∧
      (deduplicate c8Entries).map (fun e => e.1.type)
        = ["category_all_time_high", "category_year_over_year"] ∧
      ∀ e ∈ deduplicate c8Entries, e.1.type ≠ "monthly_spending_spike" := by
  have hpW : getPriorityLevel c8W = 3 := by decide
  have hpM : getPriorityLevel c8M = 2 := by decide
  have hpA : getPriorityLevel c8A = 2 := by decide
  have hpB : getPriorityLevel c8B = 2 := by decide
  have hmW : calculateMagnitude c8W = 60 := by
    norm_num [calculateMagnitude, c8W, truthyQ]
  have hmM : calculateMagnitude c8M = 31 := by
    norm_num [calculateMagnitude, c8M, truthyQ]
  have hmA : calculateMagnitude c8A = 200 := by
    norm_num [calculateMagnitude, c8A, truthyQ]
  have hmB : calculateMagnitude c8B = 150 := by
    norm_num [calculateMagnitude, c8B, truthyQ]
  have hsW : finalScore c8W = 2060 := by rw [finalScore, hpW, hmW]; norm_num
  have hsM : finalScore c8M = 3031 := by rw [finalScore, hpM, hmM]; norm_num
  have hsA : finalScore c8A = 3200 := by rw [finalScore, hpA, hmA]; norm_num
  have hsB : finalScore c8B = 3150 := by rw [finalScore, hpB, hmB]; norm_num
  refine ⟨?_, by decide, by decide, by decide, by decide⟩
  simp only [List.map, hsW, hsM, hsA, hsB, hpW, hpM, hpA, hpB, c8Entries]

theorem c8_dedup_witness :
    (((c8W, (2060:ℚ), 3) : SEntry) ∉ deduplicate c8Entries) ∧
      (((c8M, (3031:ℚ), 2) : SEntry) ∈ deduplicate c8Entries ↔
        ((c8M, (3031:ℚ), 2) : SEntry) ∈
          ((sSort lePrioScore
              (c8Entries.filter (fun e => e.1.category = some "Dining"))).filter
                (fun e => e.1.type ∉ weeklyTypes)).take 2) :=
  c8_dedup_amended c8Entries "Dining" (c8W, 2060, 3) (c8M, 3031, 2)
    (by decide) (by decide) (by decide) (by decide) (by decide)
    (by decide) (by decide)

/-! ### Merchant-name normalization

Both normalizers strip a trailing corporate suffix with an
end-anchored regular expression of the shape "one or more whitespace
characters, a suffix token, an optional dot, end of string".  Its leftmost
match removes the whole trailing whitespace run, the token (matched
case-insensitively) and the optional dot. -/

/-- Consume `tokRev` (a reversed, lowercase token) from the front of a
reversed string, case-insensitively. -/
def consumeTokRev : List Nat → List Nat → Option (List Nat)
  | [], r => some r
  | _ :: _, [] => none
  | t :: ts, c :: cs => if lowerC c = t then consumeTokRev ts cs else none

/-- One end-anchored suffix strip: `some` of the shortened string when the
pattern matches, `none` otherwise. -/
def stripSuffixTok (tok : List Nat) (s : List Nat) : Option (List Nat) :=
  let r := s.reverse
  let r := if r.head? = some 46 then r.tail else r
  match consumeTokRev tok.reverse r with
  | none => none
  | some rest =>
      match rest.head? with
      | some c =>
          if isSpaceC c then some ((rest.dropWhile isSpaceC).reverse)
          else none
      | none => none

/-- Strip with the first matching token of an alternation (the aggregator's
single pattern; its six tokens have pairwise distinct endings, so at most
one branch can match an end-anchored occurrence). -/
def stripSuffixFirst : List (List Nat) → List Nat → List Nat
  | [], s => s
  | tok :: rest, s =>
      match stripSuffixTok tok s with
      | some s' => s'
      | none => stripSuffixFirst rest s

def aggSuffixToks : List (List Nat) :=
  [pystr "inc", pystr "llc", pystr "ltd", pystr "corp", pystr "co",
   pystr "lp"]

/-- The aggregator's suffix regular expression. -/
def stripSuffixAgg (s : List Nat) : List Nat := stripSuffixFirst aggSuffixToks s

def subSuffixToks : List (List Nat) :=
  [pystr "inc", pystr "llc", pystr "ltd", pystr "corp", pystr "co",
   pystr "lp", pystr "sa", pystr "limited", pystr "corporation",
   pystr "company"]

/-- A single suffix strip that keeps the string unchanged on no match. -/
def stripSuffix1 (tok : List Nat) (s : List Nat) : List Nat :=
  (stripSuffixTok tok s).getD s

/-- The subscription detector applies its ten suffix patterns one after the
other. -/
def stripSuffixChain (s : List Nat) : List Nat :=
  subSuffixToks.foldl (fun acc tok => stripSuffix1 tok acc) s

/-- Index of the first occurrence of `pat`. -/
def findSubIdx (pat : List Nat) : List Nat → Option Nat
  | [] => if pat = [] then some 0 else none
  | c :: cs =>
      if pat.isPrefixOf (c :: cs) then some 0
      else (findSubIdx pat cs).map (· + 1)

/-- `re.sub` with a pattern "literal `pat`, then anything, to the end":
remove everything from the first occurrence of `pat` on. -/
def cutAtSub (pat : List Nat) (s : List Nat) : List Nat :=
  match findSubIdx pat s with
  | some i => s.take i
  | none => s

/-- `re.sub` for the end-anchored "optional spaces, dash, optional spaces,
digits" pattern (trailing numbers). -/
def cutDashNum (s : List Nat) : List Nat :=
  let r := s.reverse
  let digits := r.takeWhile isDigitC
  if digits = [] then s
  else
    match (r.dropWhile isDigitC).dropWhile isSpaceC with
    | c :: r3 => if c = 45 then (r3.dropWhile isSpaceC).reverse else s
    | [] => s

/-- `re.sub` for the end-anchored "hash sign, digits" pattern (location
codes). -/
def cutHashNum (s : List Nat) : List Nat :=
  let r := s.reverse
  let digits := r.takeWhile isDigitC
  if digits = [] then s
  else
    match r.dropWhile isDigitC with
    | c :: r3 => if c = 35 then r3.reverse else s
    | [] => s

/-- Replace every character that is neither a word character nor whitespace
by a blank (the subscription detector's special-character pass). -/
def spaceCleanL (s : List Nat) : List Nat :=
  s.map (fun c => if isWordC c || isSpaceC c then c else 32)

/-- Delete every character that is neither a word character nor whitespace
(the aggregator's special-character pass). -/
def rmSpecialL (s : List Nat) : List Nat :=
  s.filter (fun c => isWordC c || isSpaceC c)

/-- `normalize_merchant_name` of the Subscription Detector. -/
def normalizeMerchantSub (s : List Nat) : List Nat :=
  if s = [] then pystr "unknown"
  else
    let n := lowerL s
    let n := stripSuffixChain n
    let n := cutAtSub (pystr ".com") n
    let n := cutAtSub (pystr "/") n
    let n := cutDashNum n
    let n := cutHashNum n
    let n := spaceCleanL n
    let n := collapseL n
    let n := stripL n
    if n = [] then pystr "unknown" else n

/-- `pat in s` (Python substring containment). -/
def containsSub (pat : List Nat) : List Nat → Bool
  | [] => decide (pat = [])
  | c :: cs => pat.isPrefixOf (c :: cs) || containsSub pat cs

/-- The aggregator's abbreviation table, in the source's dictionary order. -/
def aggNormTable : List (List Nat × List Nat) :=
  [(pystr "AMZN", pystr "Amazon"), (pystr "AMZ", pystr "Amazon"),
   (pystr "AMAZON COM", pystr "Amazon"),
   (pystr "STARBUCKS", pystr "Starbucks"), (pystr "SBX", pystr "Starbucks"),
   (pystr "MCDONALDS", pystr "McDonalds"), (pystr "MCD", pystr "McDonalds"),
   (pystr "TARGET", pystr "Target"), (pystr "TGT", pystr "Target"),
   (pystr "WALMART", pystr "Walmart"), (pystr "WMT", pystr "Walmart")]

/-- First table entry whose key occurs in the cleaned upper-case name. -/
def tableHit : List (List Nat × List Nat) → List Nat → Option (List Nat)
  | [], _ => none
  | (k, v) :: rest, mu =>
      if containsSub k mu then some v else tableHit rest mu

/-- `_normalize_merchant` of the Aggregator. -/
def normalizeMerchantAgg (s : List Nat) : List Nat :=
  if s = [] then pystr "UNKNOWN"
  else
    let m := stripSuffixAgg s
    let m := rmSpecialL m
    let mu := stripL (upperL m)
    match tableHit aggNormTable mu with
    | some v => v
    | none => titleL (stripL m)

/-! ### Character-level facts about the case maps -/

theorem upperC_upperC (c : Nat) : upperC (upperC c) = upperC c := by
  simp only [upperC, isLowerC]
  split_ifs <;>
    (try rw [Bool.eq_iff_iff]) <;>
    (try simp only [Bool.or_eq_true, Bool.and_eq_true, decide_eq_true_eq]
      at *) <;>
    omega

theorem upperC_lowerC (c : Nat) : upperC (lowerC c) = upperC c := by
  simp only [upperC, lowerC, isLowerC, isUpperC]
  split_ifs <;>
    (try rw [Bool.eq_iff_iff]) <;>
    (try simp only [Bool.or_eq_true, Bool.and_eq_true, decide_eq_true_eq]
      at *) <;>
    omega

theorem lowerC_lowerC (c : Nat) : lowerC (lowerC c) = lowerC c := by
  simp only [lowerC, isUpperC]
  split_ifs <;>
    (try rw [Bool.eq_iff_iff]) <;>
    (try simp only [Bool.or_eq_true, Bool.and_eq_true, decide_eq_true_eq]
      at *) <;>
    omega

theorem isAlphaC_upperC (c : Nat) : isAlphaC (upperC c) = isAlphaC c := by
  simp only [isAlphaC, upperC, isLowerC, isUpperC]
  split_ifs <;>
    (try rw [Bool.eq_iff_iff]) <;>
    (try simp only [Bool.or_eq_true, Bool.and_eq_true, decide_eq_true_eq]
      at *) <;>
    omega

theorem isAlphaC_lowerC (c : Nat) : isAlphaC (lowerC c) = isAlphaC c := by
  simp only [isAlphaC, lowerC, isLowerC, isUpperC]
  split_ifs <;>
    (try rw [Bool.eq_iff_iff]) <;>
    (try simp only [Bool.or_eq_true, Bool.and_eq_true, decide_eq_true_eq]
      at *) <;>
    omega

theorem isSpaceC_upperC (c : Nat) : isSpaceC (upperC c) = isSpaceC c := by
  simp only [isSpaceC, upperC, isLowerC]
  split_ifs <;>
    (try rw [Bool.eq_iff_iff]) <;>
    (try simp only [Bool.or_eq_true, Bool.and_eq_true, decide_eq_true_eq]
      at *) <;>
    omega

theorem isSpaceC_lowerC (c : Nat) : isSpaceC (lowerC c) = isSpaceC c := by
  simp only [isSpaceC, lowerC, isUpperC]
  split_ifs <;>
    (try rw [Bool.eq_iff_iff]) <;>
    (try simp only [Bool.or_eq_true, Bool.and_eq_true, decide_eq_true_eq]
      at *) <;>
    omega

theorem isWordC_upperC (c : Nat) : isWordC (upperC c) = isWordC c := by
  simp only [isWordC, isAlphaC, upperC, isLowerC, isUpperC]
  split_ifs <;>
    (try rw [Bool.eq_iff_iff]) <;>
    (try simp only [Bool.or_eq_true, Bool.and_eq_true, decide_eq_true_eq]
      at *) <;>
    omega

theorem isWordC_lowerC (c : Nat) : isWordC (lowerC c) = isWordC c := by
  simp only [isWordC, isAlphaC, lowerC, isLowerC, isUpperC]
  split_ifs <;>
    (try rw [Bool.eq_iff_iff]) <;>
    (try simp only [Bool.or_eq_true, Bool.and_eq_true, decide_eq_true_eq]
      at *) <;>
    omega

theorem isUpperC_lowerC (c : Nat) : isUpperC (lowerC c) = false := by
  simp only [lowerC, isUpperC]
  split_ifs <;>
    simp only [Bool.and_eq_false_iff, decide_eq_false_iff_not,
      Bool.and_eq_true, decide_eq_true_eq] at * <;>
    omega

theorem lowerC_of_not_upper {c : Nat} (h : isUpperC c = false) :
    lowerC c = c := by
  simp [lowerC, h]

theorem titleC_titleC (p : Bool) (c : Nat) :
    titleC p (titleC p c) = titleC p c := by
  cases p with
  | true => simp [titleC, lowerC_lowerC]
  | false =>
      simp only [titleC, Bool.false_eq_true, if_false]
      by_cases h : isAlphaC c = true
      · rw [if_pos h, if_pos (by rw [isAlphaC_upperC]; exact h), upperC_upperC]
      · rw [if_neg h, if_neg h]

theorem isAlphaC_titleC (p : Bool) (c : Nat) :
    isAlphaC (titleC p c) = isAlphaC c := by
  cases p with
  | true => simp [titleC, isAlphaC_lowerC]
  | false =>
      simp only [titleC, Bool.false_eq_true, if_false]
      by_cases h : isAlphaC c = true
      · rw [if_pos h, isAlphaC_upperC]
      · rw [if_neg h]

theorem isSpaceC_titleC (p : Bool) (c : Nat) :
    isSpaceC (titleC p c) = isSpaceC c := by
  cases p with
  | true => simp [titleC, isSpaceC_lowerC]
  | false =>
      simp only [titleC, Bool.false_eq_true, if_false]
      by_cases h : isAlphaC c = true
      · rw [if_pos h, isSpaceC_upperC]
      · rw [if_neg h]

theorem isWordC_titleC (p : Bool) (c : Nat) :
    isWordC (titleC p c) = isWordC c := by
  cases p with
  | true => simp [titleC, isWordC_lowerC]
  | false =>
      simp only [titleC, Bool.false_eq_true, if_false]
      by_cases h : isAlphaC c = true
      · rw [if_pos h, isWordC_upperC]
      · rw [if_neg h]

theorem upperC_titleC (p : Bool) (c : Nat) :
    upperC (titleC p c) = upperC c := by
  cases p with
  | true => simp [titleC, upperC_lowerC]
  | false =>
      simp only [titleC, Bool.false_eq_true, if_false]
      by_cases h : isAlphaC c = true
      · rw [if_pos h, upperC_upperC]
      · rw [if_neg h]

/-! ### String-level facts about `title`, `strip`, `upper` -/

theorem space_not_alpha {c : Nat} (h : isSpaceC c = true) :
    isAlphaC c = false := by
  simp only [isSpaceC, isAlphaC, isUpperC, isLowerC, Bool.or_eq_true,
    Bool.and_eq_true, decide_eq_true_eq] at *
  simp only [Bool.or_eq_false_iff, Bool.and_eq_false_iff,
    decide_eq_false_iff_not]
  omega

theorem titleAux_eq_nil {p : Bool} {l : List Nat} :
    titleAux p l = [] ↔ l = [] := by
  cases l <;> simp [titleAux]

theorem upperL_titleAux (p : Bool) (l : List Nat) :
    upperL (titleAux p l) = upperL l := by
  induction l generalizing p with
  | nil => rfl
  | cons c cs ih =>
      have h := ih (isAlphaC c)
      simp only [upperL] at h
      simp only [titleAux, upperL, List.map, upperC_titleC, h]

theorem titleAux_titleAux (p : Bool) (l : List Nat) :
    titleAux p (titleAux p l) = titleAux p l := by
  induction l generalizing p with
  | nil => rfl
  | cons c cs ih =>
      simp only [titleAux, titleC_titleC, isAlphaC_titleC]
      rw [ih (isAlphaC c)]

theorem dropLead_titleAux (l : List Nat) :
    dropLead (titleAux false l) = titleAux false (dropLead l) := by
  induction l with
  | nil => rfl
  | cons c cs ih =>
      by_cases hs : isSpaceC c = true
      · have ha : isAlphaC c = false := space_not_alpha hs
        simp only [titleAux, dropLead, isSpaceC_titleC, hs, if_true, ha, ih]
      · simp only [titleAux, dropLead, isSpaceC_titleC, hs, if_false,
          Bool.false_eq_true]

theorem dropTrail_titleAux (p : Bool) (l : List Nat) :
    dropTrail (titleAux p l) = titleAux p (dropTrail l) := by
  induction l generalizing p with
  | nil => rfl
  | cons c cs ih =>
      simp only [titleAux, dropTrail]
      rw [ih (isAlphaC c)]
      rcases hd : dropTrail cs with _ | ⟨d, ds⟩
      · simp only [titleAux, isSpaceC_titleC]
        by_cases hs : isSpaceC c = true
        · simp [hs, titleAux]
        · simp [hs, titleAux]
      · simp [titleAux]

theorem dropLead_upperL (l : List Nat) :
    dropLead (upperL l) = upperL (dropLead l) := by
  induction l with
  | nil => rfl
  | cons c cs ih =>
      have h := ih
      simp only [upperL] at h
      by_cases hs : isSpaceC c = true
      · simp only [upperL, List.map, dropLead, isSpaceC_upperC, hs, if_true, h]
      · simp only [upperL, List.map, dropLead, isSpaceC_upperC, hs, if_false,
          Bool.false_eq_true]

theorem dropTrail_upperL (l : List Nat) :
    dropTrail (upperL l) = upperL (dropTrail l) := by
  induction l with
  | nil => rfl
  | cons c cs ih =>
      have h := ih
      simp only [upperL] at h
      simp only [upperL, List.map, dropTrail, h]
      rcases hd : dropTrail cs with _ | ⟨d, ds⟩
      · simp only [List.map]
        by_cases hs : isSpaceC c = true
        · simp [isSpaceC_upperC, hs]
        · simp [isSpaceC_upperC, hs]
      · simp [List.map]

theorem dropLead_dropLead (l : List Nat) :
    dropLead (dropLead l) = dropLead l := by
  induction l with
  | nil => rfl
  | cons c cs ih =>
      by_cases hs : isSpaceC c = true
      · simp [dropLead, hs, ih]
      · simp [dropLead, hs]

theorem dropTrail_cons (c : Nat) (cs : List Nat) :
    dropTrail (c :: cs) = match dropTrail cs with
      | [] => if isSpaceC c then [] else [c]
      | r => c :: r := rfl

theorem dropTrail_dropTrail (l : List Nat) :
    dropTrail (dropTrail l) = dropTrail l := by
  induction l with
  | nil => rfl
  | cons c cs ih =>
      rcases hd : dropTrail cs with _ | ⟨d, ds⟩
      · by_cases hs : isSpaceC c = true
        · simp [dropTrail_cons, hs, hd, dropTrail]
        · simp [dropTrail_cons, hs, hd, dropTrail]
      · rw [hd] at ih
        have h1 : dropTrail (c :: cs) = c :: d :: ds := by
          rw [dropTrail_cons, hd]
        rw [h1, dropTrail_cons, ih]

theorem dropTrail_dropLead (l : List Nat) :
    dropTrail (dropLead l) = dropLead (dropTrail l) := by
  induction l with
  | nil => rfl
  | cons c cs ih =>
      by_cases hs : isSpaceC c = true
      · simp only [dropLead, hs, if_true, ih, dropTrail]
        rcases hd : dropTrail cs with _ | ⟨d, ds⟩
        · simp [hs]
        · simp [dropLead, hs]
      · simp only [dropLead, hs, if_false, dropTrail, Bool.false_eq_true]
        rcases hd : dropTrail cs with _ | ⟨d, ds⟩
        · simp [hs, dropLead]
        · simp [dropLead, hs]

theorem stripL_stripL (l : List Nat) : stripL (stripL l) = stripL l := by
  unfold stripL
  rw [dropTrail_dropLead, dropLead_dropLead, dropTrail_dropTrail]

theorem stripL_titleL (l : List Nat) :
    stripL (titleL l) = titleL (stripL l) := by
  unfold stripL titleL
  rw [dropTrail_titleAux, dropLead_titleAux]

theorem stripL_upperL (l : List Nat) :
    stripL (upperL l) = upperL (stripL l) := by
  unfold stripL
  rw [dropTrail_upperL, dropLead_upperL]

theorem upperL_titleL (l : List Nat) : upperL (titleL l) = upperL l :=
  upperL_titleAux false l

theorem titleL_titleL (l : List Nat) : titleL (titleL l) = titleL l :=
  titleAux_titleAux false l

/-! ### Stage invariants of the normalizers -/

theorem mem_dropLead {a : Nat} {l : List Nat} (h : a ∈ dropLead l) :
    a ∈ l := by
  induction l with
  | nil => exact h
  | cons c cs ih =>
      by_cases hs : isSpaceC c = true
      · rw [dropLead, if_pos hs] at h
        exact List.mem_cons_of_mem c (ih h)
      · rw [dropLead, if_neg hs] at h
        exact h

theorem mem_dropTrail {a : Nat} {l : List Nat} (h : a ∈ dropTrail l) :
    a ∈ l := by
  induction l with
  | nil => exact h
  | cons c cs ih =>
      rw [dropTrail_cons] at h
      rcases hd : dropTrail cs with _ | ⟨d, ds⟩ <;> rw [hd] at h
      · by_cases hs : isSpaceC c = true
        · simp [hs] at h
        · simp [hs] at h
          simp [h]
      · rcases List.mem_cons.1 h with h | h
        · simp [h]
        · exact List.mem_cons_of_mem c (ih (hd ▸ h))

theorem mem_stripL {a : Nat} {l : List Nat} (h : a ∈ stripL l) : a ∈ l :=
  mem_dropTrail (mem_dropLead h)

theorem mem_consumeTokRev {t r rest : List Nat} {a : Nat}
    (h : consumeTokRev t r = some rest) (ha : a ∈ rest) : a ∈ r := by
  induction t generalizing r with
  | nil =>
      rw [consumeTokRev] at h
      cases h
      exact ha
  | cons x xs ih =>
      cases r with
      | nil => exact absurd h (by simp [consumeTokRev])
      | cons c cs =>
          rw [consumeTokRev] at h
          by_cases hc : lowerC c = x
          · rw [if_pos hc] at h
            exact List.mem_cons_of_mem c (ih h)
          · rw [if_neg hc] at h
            cases h

theorem mem_dropWhile {p : Nat → Bool} {l : List Nat} {a : Nat}
    (h : a ∈ l.dropWhile p) : a ∈ l :=
  (List.dropWhile_sublist p).subset h

theorem mem_stripSuffixTok {tok s s' : List Nat} {a : Nat}
    (h : stripSuffixTok tok s = some s') (ha : a ∈ s') : a ∈ s := by
  simp only [stripSuffixTok] at h
  rcases hc : consumeTokRev tok.reverse
      (if s.reverse.head? = some 46 then s.reverse.tail else s.reverse) with
    _ | rest
  · rw [hc] at h
    cases h
  · rw [hc] at h
    dsimp only at h
    rcases hh : rest.head? with _ | c
    · rw [hh] at h
      cases h
    · rw [hh] at h
      dsimp only at h
      by_cases hs : isSpaceC c = true
      · rw [if_pos hs] at h
        cases h
        have h1 : a ∈ rest := by
          have := List.mem_reverse.1 ha
          exact mem_dropWhile this
        have h2 := mem_consumeTokRev hc h1
        by_cases hdot : s.reverse.head? = some 46
        · rw [if_pos hdot] at h2
          exact List.mem_reverse.1 (List.mem_of_mem_tail h2)
        · rw [if_neg hdot] at h2
          exact List.mem_reverse.1 h2
      · rw [if_neg hs] at h
        cases h

theorem mem_stripSuffix1 {tok s : List Nat} {a : Nat}
    (h : a ∈ stripSuffix1 tok s) : a ∈ s := by
  unfold stripSuffix1 at h
  rcases hc : stripSuffixTok tok s with _ | s'
  · rw [hc] at h
    exact h
  · rw [hc] at h
    exact mem_stripSuffixTok hc h

theorem mem_stripSuffixChain {s : List Nat} {a : Nat}
    (h : a ∈ stripSuffixChain s) : a ∈ s := by
  have main : ∀ (toks : List (List Nat)) (s : List Nat),
      a ∈ toks.foldl (fun acc tok => stripSuffix1 tok acc) s → a ∈ s := by
    intro toks
    induction toks with
    | nil => intro s h; exact h
    | cons t ts ih =>
        intro s h
        exact mem_stripSuffix1 (ih _ h)
  exact main subSuffixToks s h

theorem mem_cutAtSub {pat s : List Nat} {a : Nat} (h : a ∈ cutAtSub pat s) :
    a ∈ s := by
  unfold cutAtSub at h
  rcases hf : findSubIdx pat s with _ | i <;> rw [hf] at h
  · exact h
  · exact List.mem_of_mem_take h

theorem mem_cutDashNum {s : List Nat} {a : Nat} (h : a ∈ cutDashNum s) :
    a ∈ s := by
  simp only [cutDashNum] at h
  by_cases hd : s.reverse.takeWhile isDigitC = []
  · rw [if_pos hd] at h
    exact h
  · rw [if_neg hd] at h
    rcases hr : (s.reverse.dropWhile isDigitC).dropWhile isSpaceC with
      _ | ⟨c, r3⟩ <;> rw [hr] at h <;> dsimp only at h
    · exact h
    · by_cases hc : c = 45
      · rw [if_pos hc] at h
        have h1 : a ∈ r3 := mem_dropWhile (List.mem_reverse.1 h)
        have h2 : a ∈ (s.reverse.dropWhile isDigitC).dropWhile isSpaceC := by
          rw [hr]
          exact List.mem_cons_of_mem c h1
        exact List.mem_reverse.1 (mem_dropWhile (mem_dropWhile h2))
      · rw [if_neg hc] at h
        exact h

theorem mem_cutHashNum {s : List Nat} {a : Nat} (h : a ∈ cutHashNum s) :
    a ∈ s := by
  simp only [cutHashNum] at h
  by_cases hd : s.reverse.takeWhile isDigitC = []
  · rw [if_pos hd] at h
    exact h
  · rw [if_neg hd] at h
    rcases hr : s.reverse.dropWhile isDigitC with _ | ⟨c, r3⟩ <;>
      rw [hr] at h <;> dsimp only at h
    · exact h
    · by_cases hc : c = 35
      · rw [if_pos hc] at h
        have h2 : a ∈ s.reverse.dropWhile isDigitC := by
          rw [hr]
          exact List.mem_cons_of_mem c (List.mem_reverse.1 h)
        exact List.mem_reverse.1 (mem_dropWhile h2)
      · rw [if_neg hc] at h
        exact h

theorem lowerL_eq_self {l : List Nat} (h : ∀ c ∈ l, isUpperC c = false) :
    lowerL l = l := by
  induction l with
  | nil => rfl
  | cons c cs ih =>
      rw [lowerL, List.map]
      rw [lowerC_of_not_upper (h c (List.mem_cons_self c cs))]
      rw [show List.map lowerC cs = lowerL cs from rfl,
        ih (fun d hd => h d (List.mem_cons_of_mem c hd))]

theorem noUpper_lowerL (l : List Nat) : ∀ c ∈ lowerL l, isUpperC c = false := by
  intro c hc
  rcases List.mem_map.1 hc with ⟨d, _, rfl⟩
  exact isUpperC_lowerC d

theorem findSubIdx_none {p0 : Nat} {pr l : List Nat} (h : p0 ∉ l) :
    findSubIdx (p0 :: pr) l = none := by
  induction l with
  | nil => rfl
  | cons c cs ih =>
      rw [findSubIdx]
      have hne : p0 ≠ c := fun he => h (he ▸ List.mem_cons_self c cs)
      have hpre : (p0 :: pr).isPrefixOf (c :: cs) = false := by
        simp [List.isPrefixOf, hne]
      rw [hpre]
      simp only [Bool.false_eq_true, if_false]
      rw [ih (fun hm => h (List.mem_cons_of_mem c hm))]
      rfl

theorem cutAtSub_eq_self {p0 : Nat} {pr l : List Nat} (h : p0 ∉ l) :
    cutAtSub (p0 :: pr) l = l := by
  unfold cutAtSub
  rw [findSubIdx_none h]

theorem cutDashNum_eq_self {l : List Nat} (h : (45 : Nat) ∉ l) :
    cutDashNum l = l := by
  simp only [cutDashNum]
  by_cases hd : l.reverse.takeWhile isDigitC = []
  · rw [if_pos hd]
  · rw [if_neg hd]
    rcases hr : (l.reverse.dropWhile isDigitC).dropWhile isSpaceC with
      _ | ⟨c, r3⟩
    · rfl
    · dsimp only
      have hc : c ≠ 45 := by
        intro he
        apply h
        have : c ∈ (l.reverse.dropWhile isDigitC).dropWhile isSpaceC := by
          rw [hr]; exact List.mem_cons_self c r3
        exact he ▸ List.mem_reverse.1 (mem_dropWhile (mem_dropWhile this))
      rw [if_neg hc]

theorem cutHashNum_eq_self {l : List Nat} (h : (35 : Nat) ∉ l) :
    cutHashNum l = l := by
  simp only [cutHashNum]
  by_cases hd : l.reverse.takeWhile isDigitC = []
  · rw [if_pos hd]
  · rw [if_neg hd]
    rcases hr : l.reverse.dropWhile isDigitC with _ | ⟨c, r3⟩
    · rfl
    · dsimp only
      have hc : c ≠ 35 := by
        intro he
        apply h
        have : c ∈ l.reverse.dropWhile isDigitC := by
          rw [hr]; exact List.mem_cons_self c r3
        exact he ▸ List.mem_reverse.1 (mem_dropWhile this)
      rw [if_neg hc]

theorem spaceCleanL_eq_self {l : List Nat}
    (h : ∀ c ∈ l, isWordC c = true ∨ isSpaceC c = true) :
    spaceCleanL l = l := by
  induction l with
  | nil => rfl
  | cons c cs ih =>
      rw [spaceCleanL, List.map]
      have hc : (if isWordC c || isSpaceC c then c else 32) = c := by
        rcases h c (List.mem_cons_self c cs) with h1 | h1 <;> simp [h1]
      rw [hc, show List.map (fun c => if isWordC c || isSpaceC c then c
        else 32) cs = spaceCleanL cs from rfl,
        ih (fun d hd => h d (List.mem_cons_of_mem c hd))]

theorem spaceCleanL_chars (l : List Nat) :
    ∀ c ∈ spaceCleanL l, isWordC c = true ∨ isSpaceC c = true := by
  intro c hc
  rcases List.mem_map.1 hc with ⟨d, _, rfl⟩
  by_cases h : (isWordC d || isSpaceC d) = true
  · rw [if_pos h]
    rcases Bool.or_eq_true_iff.1 h with h1 | h1
    · exact Or.inl h1
    · exact Or.inr h1
  · rw [if_neg h]
    right
    rfl

/-- A list is `collapse`-normal for state `prev` when all of its whitespace
is single plain blanks not preceded by whitespace (and not at the start when
`prev` is set). -/
def okRunB : Bool → List Nat → Bool
  | _, [] => true
  | prev, c :: cs =>
      if isSpaceC c then !prev && (c == 32) && okRunB true cs
      else okRunB false cs

theorem collapseAux_of_okRun {l : List Nat} :
    ∀ {p : Bool}, okRunB p l = true → collapseAux p l = l := by
  induction l with
  | nil => intro p _; rfl
  | cons c cs ih =>
      intro p h
      rw [okRunB] at h
      by_cases hs : isSpaceC c = true
      · rw [if_pos hs] at h
        simp only [Bool.and_eq_true, Bool.not_eq_true', beq_iff_eq] at h
        rw [collapseAux, if_pos hs, h.1.1, if_neg (by simp), h.1.2,
          ih h.2]
        rfl
      · rw [if_neg hs] at h
        rw [collapseAux, if_neg hs, ih h]

theorem okRun_collapseAux (l : List Nat) :
    ∀ p : Bool, okRunB p (collapseAux p l) = true := by
  induction l with
  | nil => intro p; rfl
  | cons c cs ih =>
      intro p
      by_cases hs : isSpaceC c = true
      · rw [collapseAux, if_pos hs]
        cases p with
        | true => simpa using ih true
        | false =>
            simp only [Bool.false_eq_true, if_false, List.singleton_append]
            rw [okRunB, if_pos (by decide : isSpaceC 32 = true)]
            simpa using ih true
      · rw [collapseAux, if_neg hs, okRunB, if_neg hs]
        exact ih false

theorem okRun_true_imp_false {l : List Nat} (h : okRunB true l = true) :
    okRunB false l = true := by
  cases l with
  | nil => rfl
  | cons c cs =>
      rw [okRunB] at h ⊢
      by_cases hs : isSpaceC c = true
      · rw [if_pos hs] at h
        simp at h
      · rw [if_neg hs] at h ⊢
        exact h

theorem okRun_dropLead {l : List Nat} (h : okRunB false l = true) :
    okRunB false (dropLead l) = true := by
  induction l with
  | nil => exact h
  | cons c cs ih =>
      rw [okRunB] at h
      by_cases hs : isSpaceC c = true
      · rw [if_pos hs] at h
        simp only [Bool.and_eq_true, Bool.not_eq_true', beq_iff_eq] at h
        rw [dropLead, if_pos hs]
        exact ih (okRun_true_imp_false h.2)
      · rw [if_neg hs] at h
        rw [dropLead, if_neg hs, okRunB, if_neg hs]
        exact h

theorem okRun_dropTrail {l : List Nat} :
    ∀ {p : Bool}, okRunB p l = true → okRunB p (dropTrail l) = true := by
  induction l with
  | nil => intro p h; exact h
  | cons c cs ih =>
      intro p h
      rw [okRunB] at h
      rw [dropTrail_cons]
      rcases hd : dropTrail cs with _ | ⟨d, ds⟩
      · by_cases hs : isSpaceC c = true
        · simp [hs, okRunB]
        · simp [hs, okRunB]
      · by_cases hs : isSpaceC c = true
        · rw [if_pos hs] at h
          simp only [Bool.and_eq_true, Bool.not_eq_true', beq_iff_eq] at h
          rw [okRunB, if_pos hs]
          simp only [h.1.1, h.1.2, Bool.not_false, Bool.true_and,
            beq_self_eq_true]
          rw [← hd]
          exact ih h.2
        · rw [if_neg hs] at h
          rw [okRunB, if_neg hs, ← hd]
          exact ih h

theorem mem_collapseAux {a : Nat} {l : List Nat} :
    ∀ {p : Bool}, a ∈ collapseAux p l → a = 32 ∨ (a ∈ l ∧ isSpaceC a = false) := by
  induction l with
  | nil => intro p h; cases h
  | cons c cs ih =>
      intro p h
      rw [collapseAux] at h
      by_cases hs : isSpaceC c = true
      · rw [if_pos hs] at h
        rcases List.mem_append.1 h with h1 | h1
        · left
          rcases hp : p with _ | _ <;> rw [hp] at h1 <;> simp at h1
          exact h1
        · rcases ih h1 with h2 | h2
          · exact Or.inl h2
          · exact Or.inr ⟨List.mem_cons_of_mem c h2.1, h2.2⟩
      · rw [if_neg hs] at h
        rcases List.mem_cons.1 h with h1 | h1
        · right
          exact ⟨h1 ▸ List.mem_cons_self c cs,
            h1 ▸ Bool.not_eq_true _ ▸ (by simpa using hs)⟩
        · rcases ih h1 with h2 | h2
          · exact Or.inl h2
          · exact Or.inr ⟨List.mem_cons_of_mem c h2.1, h2.2⟩

/-- The invariants every output of the subscription-detector normalizer
satisfies: no uppercase letters, only word characters and plain blanks,
collapse-normal whitespace, no leading/trailing whitespace, nonempty. -/
theorem subNorm_invariants (s : List Nat) :
    (∀ c ∈ normalizeMerchantSub s, isUpperC c = false) ∧
      (∀ c ∈ normalizeMerchantSub s, isWordC c = true ∨ c = 32) ∧
      okRunB false (normalizeMerchantSub s) = true ∧
      stripL (normalizeMerchantSub s) = normalizeMerchantSub s ∧
      normalizeMerchantSub s ≠ [] := by
  by_cases hs : s = []
  · rw [normalizeMerchantSub, if_pos hs]
    exact ⟨by decide, by decide, by decide, by decide, by decide⟩
  · simp only [normalizeMerchantSub, if_neg hs]
    by_cases hz : stripL (collapseL (spaceCleanL (cutHashNum (cutDashNum
        (cutAtSub (pystr "/") (cutAtSub (pystr ".com")
          (stripSuffixChain (lowerL s)))))))) = []
    · rw [if_pos hz]
      exact ⟨by decide, by decide, by decide, by decide, by decide⟩
    · rw [if_neg hz]
      have hwno : ∀ c ∈ cutHashNum (cutDashNum (cutAtSub (pystr "/")
          (cutAtSub (pystr ".com") (stripSuffixChain (lowerL s))))),
          isUpperC c = false := by
        intro c hc
        exact noUpper_lowerL s c (mem_stripSuffixChain (mem_cutAtSub
          (mem_cutAtSub (mem_cutDashNum (mem_cutHashNum hc)))))
      refine ⟨?_, ?_, ?_, stripL_stripL _, hz⟩
      · intro c hc
        rcases mem_collapseAux (mem_stripL hc) with h1 | h1
        · rw [h1]; decide
        · rcases List.mem_map.1 h1.1 with ⟨d, hd, he⟩
          by_cases hcl : (isWordC d || isSpaceC d) = true
          · rw [if_pos hcl] at he
            exact he ▸ hwno d hd
          · rw [if_neg hcl] at he
            rw [← he]; decide
      · intro c hc
        rcases mem_collapseAux (mem_stripL hc) with h1 | h1
        · exact Or.inr h1
        · rcases spaceCleanL_chars _ c h1.1 with h2 | h2
          · exact Or.inl h2
          · rw [h2] at h1
            exact absurd h1.2 (by simp)
      · exact okRun_dropLead (okRun_dropTrail (okRun_collapseAux _ false))

/-- C3, subscription-detector side, amended: the normalizer is idempotent on
every input whose normalized form is a fixed point of the sequential
suffix-stripping pass. -/
theorem c3_sub_idem (x : List Nat)
    (hfix : stripSuffixChain (normalizeMerchantSub x) = normalizeMerchantSub x) :
    normalizeMerchantSub (normalizeMerchantSub x) = normalizeMerchantSub x := by
  obtain ⟨hno, hch, hok, hst, hne⟩ := subNorm_invariants x
  generalize hy : normalizeMerchantSub x = y at *
  have h46 : (46 : Nat) ∉ y := by
    intro hm
    rcases hch 46 hm with h | h <;> simp [isWordC, isAlphaC, isUpperC,
      isLowerC] at h
  have h47 : (47 : Nat) ∉ y := by
    intro hm
    rcases hch 47 hm with h | h <;> simp [isWordC, isAlphaC, isUpperC,
      isLowerC] at h
  have h45 : (45 : Nat) ∉ y := by
    intro hm
    rcases hch 45 hm with h | h <;> simp [isWordC, isAlphaC, isUpperC,
      isLowerC] at h
  have h35 : (35 : Nat) ∉ y := by
    intro hm
    rcases hch 35 hm with h | h <;> simp [isWordC, isAlphaC, isUpperC,
      isLowerC] at h
  have hcom : pystr ".com" = 46 :: pystr "com" := by decide
  have hsl : pystr "/" = [(47 : Nat)] := by decide
  simp only [normalizeMerchantSub, if_neg hne]
  rw [lowerL_eq_self hno, hfix, hcom, cutAtSub_eq_self h46, hsl,
    cutAtSub_eq_self h47, cutDashNum_eq_self h45, cutHashNum_eq_self h35,
    spaceCleanL_eq_self (fun c hc => by
      rcases hch c hc with h | h
      · exact Or.inl h
      · exact Or.inr (by rw [h]; decide)),
    (show collapseL y = y from collapseAux_of_okRun hok), hst, if_neg hne]

theorem tableHit_mem {tbl : List (List Nat × List Nat)} {mu v : List Nat}
    (h : tableHit tbl mu = some v) : ∃ k, (k, v) ∈ tbl := by
  induction tbl with
  | nil => cases h
  | cons p rest ih =>
      obtain ⟨k0, v0⟩ := p
      rw [tableHit] at h
      by_cases hc : containsSub k0 mu = true
      · rw [if_pos hc] at h
        cases h
        exact ⟨k0, List.mem_cons_self _ _⟩
      · rw [if_neg hc] at h
        rcases ih h with ⟨k, hk⟩
        exact ⟨k, List.mem_cons_of_mem _ hk⟩

theorem rmSpecialL_eq_self {l : List Nat}
    (h : ∀ c ∈ l, (isWordC c || isSpaceC c) = true) : rmSpecialL l = l :=
  List.filter_eq_self.2 h

theorem clean_rmSpecialL (l : List Nat) :
    ∀ c ∈ rmSpecialL l, (isWordC c || isSpaceC c) = true := by
  intro c hc
  rw [rmSpecialL] at hc
  exact (List.mem_filter.1 hc).2

theorem clean_stripL {l : List Nat}
    (h : ∀ c ∈ l, (isWordC c || isSpaceC c) = true) :
    ∀ c ∈ stripL l, (isWordC c || isSpaceC c) = true :=
  fun c hc => h c (mem_stripL hc)

theorem clean_titleAux {l : List Nat}
    (h : ∀ c ∈ l, (isWordC c || isSpaceC c) = true) :
    ∀ p : Bool, ∀ c ∈ titleAux p l, (isWordC c || isSpaceC c) = true := by
  induction l with
  | nil => intro p c hc; cases hc
  | cons d ds ih =>
      intro p c hc
      rw [titleAux] at hc
      rcases List.mem_cons.1 hc with h1 | h1
      · rw [h1, isWordC_titleC, isSpaceC_titleC]
        exact h d (List.mem_cons_self d ds)
      · exact ih (fun e he => h e (List.mem_cons_of_mem d he))
          (isAlphaC d) c h1

/-- C3, aggregator side, amended: the aggregator's normalizer is idempotent
on every nonempty input with nonempty normalized form that is a fixed point
of the suffix-stripping pattern. -/
theorem c3_agg_idem (x : List Nat) (hx : x ≠ [])
    (hne : normalizeMerchantAgg x ≠ [])
    (hfix : stripSuffixAgg (normalizeMerchantAgg x) = normalizeMerchantAgg x) :
    normalizeMerchantAgg (normalizeMerchantAgg x) = normalizeMerchantAgg x := by
  have hxdef : normalizeMerchantAgg x =
      match tableHit aggNormTable (stripL (upperL (rmSpecialL
          (stripSuffixAgg x)))) with
      | some v => v
      | none => titleL (stripL (rmSpecialL (stripSuffixAgg x))) := by
    simp only [normalizeMerchantAgg, if_neg hx]
  rcases htab : tableHit aggNormTable (stripL (upperL (rmSpecialL
      (stripSuffixAgg x)))) with _ | v
  · -- no table hit: the result is the stripped, title-cased cleaned string
    rw [htab] at hxdef
    dsimp only at hxdef
    generalize hm : rmSpecialL (stripSuffixAgg x) = m at hxdef
    have hclean : ∀ c ∈ m, (isWordC c || isSpaceC c) = true :=
      hm ▸ clean_rmSpecialL (stripSuffixAgg x)
    have hyne : titleL (stripL m) ≠ [] := hxdef ▸ hne
    have hyfix : stripSuffixAgg (titleL (stripL m)) = titleL (stripL m) :=
      hxdef ▸ hfix
    rw [hxdef]
    simp only [normalizeMerchantAgg, if_neg hyne]
    rw [hyfix]
    have hcleany : ∀ c ∈ titleL (stripL m), (isWordC c || isSpaceC c) = true :=
      clean_titleAux (clean_stripL hclean) false
    rw [rmSpecialL_eq_self hcleany]
    have hmu : stripL (upperL (titleL (stripL m)))
        = stripL (upperL (rmSpecialL (stripSuffixAgg x))) := by
      rw [hm, show upperL (titleL (stripL m)) = upperL (stripL m) from
        upperL_titleL (stripL m), ← stripL_upperL, stripL_stripL,
        stripL_upperL]
    rw [hmu, htab]
    dsimp only
    rw [show stripL (titleL (stripL m)) = titleL (stripL (stripL m)) from
      stripL_titleL (stripL m), stripL_stripL, titleL_titleL]
  · -- table hit: the result is one of the five canonical names
    rw [htab] at hxdef
    dsimp only at hxdef
    rcases tableHit_mem htab with ⟨k, hk⟩
    rw [hxdef]
    simp only [aggNormTable, List.mem_cons, List.mem_singleton,
      List.not_mem_nil, or_false, Prod.mk.injEq] at hk
    rcases hk with ⟨-, e1⟩ | ⟨-, e2⟩ | ⟨-, e3⟩ | ⟨-, e4⟩ | ⟨-, e5⟩ |
      ⟨-, e6⟩ | ⟨-, e7⟩ | ⟨-, e8⟩ | ⟨-, e9⟩ | ⟨-, e10⟩ | ⟨-, e11⟩
    · subst e1; decide
    · subst e2; decide
    · subst e3; decide
    · subst e4; decide
    · subst e5; decide
    · subst e6; decide
    · subst e7; decide
    · subst e8; decide
    · subst e9; decide
    · subst e10; decide
    · subst e11; decide

/-! ### Claim C3: idempotence of merchant normalization -/

/-- C3 counterexample: neither normalizer is idempotent on every string.
The aggregator maps the empty string to "UNKNOWN" but renormalizes that to
"Unknown", and title-cased output can end in a corporate-suffix token that a
second pass strips ("A CO CO" → "a co" → "a" for the detector). -/
theorem c3_idempotence_fails :
    normalizeMerchantAgg (normalizeMerchantAgg (pystr ""))
        ≠ normalizeMerchantAgg (pystr "") ∧
      normalizeMerchantSub (normalizeMerchantSub (pystr "A CO CO"))
        ≠ normalizeMerchantSub (pystr "A CO CO") := by
  constructor <;> decide

/-- C3 (amended): merchant normalization is idempotent on every input string
whose normalized form is a fixed point of the corporate-suffix stripping
pass (and, for the aggregator, both input and output are nonempty: the
aggregator turns the empty string into "UNKNOWN", which renormalizes to
"Unknown", and can strip a name down to the empty string, which then
renormalizes to "UNKNOWN"). -/
theorem c3_idempotent_amended (x : List Nat) :
    (x ≠ [] → normalizeMerchantAgg x ≠ [] →
      stripSuffixAgg (normalizeMerchantAgg x) = normalizeMerchantAgg x →
      normalizeMerchantAgg (normalizeMerchantAgg x) = normalizeMerchantAgg x) ∧
    (stripSuffixChain (normalizeMerchantSub x) = normalizeMerchantSub x →
      normalizeMerchantSub (normalizeMerchantSub x) = normalizeMerchantSub x) :=
  ⟨fun hx hne hfix => c3_agg_idem x hx hne hfix, fun hfix => c3_sub_idem x hfix⟩

set_option maxRecDepth 4000 in
theorem c3_idempotent_witness :
    normalizeMerchantAgg (normalizeMerchantAgg (pystr "Spotify USA"))
        = normalizeMerchantAgg (pystr "Spotify USA") ∧
      normalizeMerchantSub (normalizeMerchantSub (pystr "Spotify USA"))
        = normalizeMerchantSub (pystr "Spotify USA") :=
  ⟨(c3_idempotent_amended (pystr "Spotify USA")).1 (by decide) (by decide)
      (by decide),
    (c3_idempotent_amended (pystr "Spotify USA")).2 (by decide)⟩

/-! ### Data model: Transaction (app/models.py)

`date` is an integer day index: the detector only uses whole-day
differences (`timedelta.days`) and day arithmetic.  `payment_channel` and
`pending` are never read by the components under verification and are not
modelled. -/

structure Transaction where
  transaction_id : Nat
  date : Int
  amount : ℚ
  merchant_name : String
  category : List String := []
  deriving DecidableEq, Repr

/-! ### Statistics helpers (numpy mean/std on exact rationals)

`np.std` is the population standard deviation `√var`; every comparison the
source makes against a `cv = std / mean * 100` threshold is embedded as the
equivalent squared comparison, which is exact over ℚ. -/

def meanQ (l : List ℚ) : ℚ := l.sum / l.length

def varQ (l : List ℚ) : ℚ := meanQ (l.map (fun x => (x - meanQ l) ^ 2))

/-- `std / avg * 100 < thr`, i.e. `var * 100² < thr² * avg²` for positive
`avg`; the source substitutes the value 100 for the coefficient of
variation when the average is not positive. -/
def cvLtQ (avg var thr : ℚ) : Prop :=
  if 0 < avg then var * 10000 < thr ^ 2 * avg ^ 2 else 100 < thr

instance (avg var thr : ℚ) : Decidable (cvLtQ avg var thr) := by
  unfold cvLtQ
  infer_instance

/-- Python `round(x, d)` modelled as exact half-even rounding of the
rational value.  The source rounds binary doubles, which agrees with this
whenever the exact value is not within the double's representation error
(about 10^-15 at these magnitudes) of a half-way point; a near-tie decimal
such as 2.165, whose double lies strictly above it, can round differently,
so no proof in this file rounds such a value: every value rounded in a
concrete evaluation below is at least 1/600 away from a half-way point. -/
def roundHalfEven (x : ℚ) : ℤ :=
  if x - ⌊x⌋ < 1 / 2 then ⌊x⌋
  else if 1 / 2 < x - ⌊x⌋ then ⌊x⌋ + 1
  else if ⌊x⌋ % 2 = 0 then ⌊x⌋ else ⌊x⌋ + 1

def roundTo (d : Nat) (x : ℚ) : ℚ := (roundHalfEven (x * 10 ^ d) : ℚ) / 10 ^ d

def round2 : ℚ → ℚ := roundTo 2

def round1 : ℚ → ℚ := roundTo 1

/-! ### SubscriptionDetector (spending/subscription_detector.py) -/

def KNOWN_SUBSCRIPTION_SERVICES : List (List Nat) :=
  [pystr "netflix", pystr "spotify", pystr "apple", pystr "amazon prime",
   pystr "hulu", pystr "disney", pystr "youtube", pystr "google one",
   pystr "icloud", pystr "microsoft", pystr "adobe", pystr "dropbox",
   pystr "gym", pystr "fitness", pystr "planet fitness",
   pystr "24 hour fitness", pystr "equinox", pystr "hbo", pystr "peacock",
   pystr "paramount", pystr "audible", pystr "kindle", pystr "crunchyroll",
   pystr "linkedin", pystr "github", pystr "slack", pystr "zoom"]

/-- The normalized-merchant key of a transaction. -/
def normKey (t : Transaction) : List Nat :=
  normalizeMerchantSub (pystr t.merchant_name)

/-- Expense transactions (strictly negative amounts). -/
def expenseTxns (txns : List Transaction) : List Transaction :=
  txns.filter (fun t => t.amount < 0)

/-- `group_by_merchant` before the 2-transaction filter: normalized keys in
first-appearance order, each with its transactions in encounter order. -/
def merchantKeys (txns : List Transaction) : List (List Nat) :=
  firstDedup ((expenseTxns txns).map normKey)

def merchantGroup (txns : List Transaction) (k : List Nat) :
    List Transaction :=
  (expenseTxns txns).filter (fun t => normKey t = k)

/-- `group_by_merchant`: only groups with at least two transactions. -/
def groupedTransactions (txns : List Transaction) :
    List (List Nat × List Transaction) :=
  ((merchantKeys txns).map (fun k => (k, merchantGroup txns k))).filter
    (fun g => 2 ≤ g.2.length)

def dateLe (a b : Transaction) : Bool := a.date ≤ b.date

def sortByDate (txns : List Transaction) : List Transaction :=
  sSort dateLe txns

/-- Days between consecutive charges, in date order
(`calculate_interval_stats`). -/
def intervalsOf (txns : List Transaction) : List ℚ :=
  (List.zip (sortByDate txns) (sortByDate txns).tail).map
    (fun p => ((p.2.date - p.1.date : Int) : ℚ))

def intervalAvg (txns : List Transaction) : ℚ := meanQ (intervalsOf txns)

def intervalVar (txns : List Transaction) : ℚ := varQ (intervalsOf txns)

/-- interval CV < thr; with no intervals the source reports CV = 100. -/
def intervalCvLt (txns : List Transaction) (thr : ℚ) : Prop :=
  if intervalsOf txns = [] then 100 < thr
  else cvLtQ (intervalAvg txns) (intervalVar txns) thr

instance (txns : List Transaction) (thr : ℚ) :
    Decidable (intervalCvLt txns thr) := by
  unfold intervalCvLt
  infer_instance

/-- `match_frequency_bucket`. -/
def matchFrequencyBucket (avg : ℚ) : Option (String × Nat) :=
  if 6 ≤ avg ∧ avg ≤ 8 then some ("weekly", 7)
  else if 13 ≤ avg ∧ avg ≤ 16 then some ("bi-weekly", 14)
  else if 28 ≤ avg ∧ avg ≤ 32 then some ("monthly", 30)
  else if 88 ≤ avg ∧ avg ≤ 95 then some ("quarterly", 91)
  else if 360 ≤ avg ∧ avg ≤ 370 then some ("annual", 365)
  else none

/-- Absolute charge amounts (`calculate_amount_stats`). -/
def amountsOf (txns : List Transaction) : List ℚ :=
  txns.map (fun t => |t.amount|)

def amountAvg (txns : List Transaction) : ℚ := meanQ (amountsOf txns)

def amountVar (txns : List Transaction) : ℚ := varQ (amountsOf txns)

def amountCvLt (txns : List Transaction) (thr : ℚ) : Prop :=
  cvLtQ (amountAvg txns) (amountVar txns) thr

instance (txns : List Transaction) (thr : ℚ) :
    Decidable (amountCvLt txns thr) := by
  unfold amountCvLt
  infer_instance

def listMinQ : List ℚ → ℚ
  | [] => 0
  | a :: r => r.foldl min a

def listMaxQ : List ℚ → ℚ
  | [] => 0
  | a :: r => r.foldl max a

/-- `calculate_confidence_score`: binned interval-regularity (≤40), amount
consistency (≤40) and history depth (≤20), capped at 100. -/
def confidenceScore (txns : List Transaction) : ℚ :=
  let iScore : ℚ :=
    if intervalCvLt txns 10 then 40
    else if intervalCvLt txns 20 then 30
    else if intervalCvLt txns 30 then 20
    else 10
  let aScore : ℚ :=
    if amountCvLt txns 5 then 40
    else if amountCvLt txns 15 then 30
    else if amountCvLt txns 25 then 20
    else 10
  let hScore : ℚ :=
    if 10 ≤ txns.length then 20
    else if 6 ≤ txns.length then 15
    else if 3 ≤ txns.length then 10
    else 5
  min 100 (iScore + aScore + hScore)

structure PriceIncrease where
  old_price : ℚ
  new_price : ℚ
  percent_change : ℚ
  detected_date : Int
  deriving DecidableEq, Repr

/-- `detect_price_increase`: latest charge vs the mean of all earlier
charges, flagged when the increase exceeds 3%. -/
def detectPriceIncrease (txns : List Transaction) : Option PriceIncrease :=
  if txns.length < 2 then none
  else
    match (sortByDate txns).getLast? with
    | none => none
    | some last =>
        let latestCharge := |last.amount|
        let histAvg := meanQ (((sortByDate txns).dropLast).map
          (fun t => |t.amount|))
        let pct := if 0 < histAvg
          then (latestCharge - histAvg) / histAvg * 100 else 0
        if 3 < pct then
          some ⟨round2 histAvg, round2 latestCharge, round1 pct, last.date⟩
        else none

/-- `is_gray_charge`. -/
def isGrayCharge (merchant : List Nat) (amount : ℚ) (n : Nat) : Bool :=
  decide (n ≤ 3) && decide ((3 : ℚ) ≤ amount ∧ amount ≤ 25) &&
    !(KNOWN_SUBSCRIPTION_SERVICES.any
      (fun k => containsSub k (lowerL merchant)))

/-- `detect_trial_conversion`; `datetime.now()` is modelled by the `now`
parameter. -/
def detectTrialConversion (now : Int) (txns : List Transaction) : Bool :=
  if 2 < txns.length then false
  else
    let sorted := sortByDate txns
    let isRecent := match sorted.head? with
      | none => false
      | some first => decide (now - first.date ≤ 60)
    let isDiscount := match sorted with
      | [a, b] => decide (|a.amount| < |b.amount| * (1 / 2 : ℚ))
      | _ => false
    isRecent && (decide (txns.length = 1) || isDiscount)

/-- `normalize_to_monthly_cost` multipliers (4.33, 2.165, 1, 1/3, 1/12). -/
def monthlyMultiplier (freq : String) : ℚ :=
  if freq = "weekly" then 433 / 100
  else if freq = "bi-weekly" then 433 / 200
  else if freq = "monthly" then 1
  else if freq = "quarterly" then 1 / 3
  else if freq = "annual" then 1 / 12
  else 1

def normalizeToMonthlyCost (amount : ℚ) (freq : String) : ℚ :=
  amount * monthlyMultiplier freq

/-- `predict_next_charge_date`: `int()` truncates toward zero, which equals
the floor on the nonnegative mean intervals in scope. -/
def predictNextChargeDate (last : Int) (avgInterval : ℚ) : Int :=
  last + ⌊avgInterval⌋

/-- Subscription record.  The source's `interval_regularity` and
`amount_consistency` fields hold the 2-decimal rounding of
`100·√var/mean`, which is irrational in general and not representable in
this ℚ embedding; no claim reads them, so they are replaced by the defining
pair (average, variance) for each dimension. -/
structure Subscription where
  merchant_name : List Nat
  original_merchant_name : String
  frequency : String
  frequency_days : Nat
  current_amount : ℚ
  average_amount : ℚ
  min_amount : ℚ
  max_amount : ℚ
  first_charge_date : Int
  last_charge_date : Int
  next_predicted_date : Int
  transaction_count : Nat
  charges : List (Int × ℚ)
  monthly_cost : ℚ
  annual_cost : ℚ
  confidence_score : ℚ
  interval_avg : ℚ
  interval_var : ℚ
  amount_var : ℚ
  is_gray_charge : Bool
  has_price_increase : Bool
  is_trial_conversion : Bool
  needs_attention : Bool
  price_increase : Option PriceIncrease
  deriving DecidableEq, Repr

structure SubscriptionSummary where
  total_subscriptions : Nat
  total_monthly_cost : ℚ
  total_annual_cost : ℚ
  gray_charges_count : Nat
  price_increases_count : Nat
  trial_conversions_count : Nat
  subscriptions : List Subscription
  deriving DecidableEq, Repr

/-- The four gates of the `detect_subscriptions` loop: regular intervals
(CV < 20), a matching frequency bucket, consistent amounts (CV < 15), mean
charge at least one dollar. -/
def subscriptionGates (txns : List Transaction) : Prop :=
  intervalCvLt txns 20 ∧ (matchFrequencyBucket (intervalAvg txns)).isSome ∧
    amountCvLt txns 15 ∧ 1 ≤ amountAvg txns

instance (txns : List Transaction) : Decidable (subscriptionGates txns) := by
  unfold subscriptionGates
  infer_instance

/-- The Subscription record built for a group that passed all gates. -/
def buildSubscription (now : Int) (k : List Nat) (g : List Transaction) :
    Subscription :=
  let sorted := sortByDate g
  let freq := (matchFrequencyBucket (intervalAvg g)).getD ("", 0)
  let pinc := detectPriceIncrease g
  let gray := isGrayCharge k (amountAvg g) g.length
  let trial := detectTrialConversion now g
  let currentAmount := |((sorted.getLast?).map (fun t => t.amount)).getD 0|
  let monthlyCost := normalizeToMonthlyCost currentAmount freq.1
  { merchant_name := k
    original_merchant_name := ((g.head?).map
      (fun t => t.merchant_name)).getD ""
    frequency := freq.1
    frequency_days := freq.2
    current_amount := round2 currentAmount
    average_amount := round2 (amountAvg g)
    min_amount := round2 (listMinQ (amountsOf g))
    max_amount := round2 (listMaxQ (amountsOf g))
    first_charge_date := ((sorted.head?).map (fun t => t.date)).getD 0
    last_charge_date := ((sorted.getLast?).map (fun t => t.date)).getD 0
    next_predicted_date := predictNextChargeDate
      (((sorted.getLast?).map (fun t => t.date)).getD 0) (intervalAvg g)
    transaction_count := g.length
    charges := sorted.map (fun t => (t.date, round2 |t.amount|))
    monthly_cost := round2 monthlyCost
    annual_cost := round2 (monthlyCost * 12)
    confidence_score := round1 (confidenceScore g)
    interval_avg := intervalAvg g
    interval_var := intervalVar g
    amount_var := amountVar g
    is_gray_charge := gray
    has_price_increase := pinc.isSome
    is_trial_conversion := trial
    needs_attention := pinc.isSome || gray || trial
    price_increase := pinc }

def leMonthlyDesc (a b : Subscription) : Bool :=
  b.monthly_cost ≤ a.monthly_cost

/-- `detect_subscriptions`: run the gates over every merchant group, build
the Subscription records, sort by monthly cost descending and summarize. -/
def detectSubscriptions (now : Int) (txns : List Transaction) :
    SubscriptionSummary :=
  let subs := (groupedTransactions txns).filterMap
    (fun g => if subscriptionGates g.2
      then some (buildSubscription now g.1 g.2) else none)
  let subs := sSort leMonthlyDesc subs
  { total_subscriptions := subs.length
    total_monthly_cost := round2 (subs.map (fun s => s.monthly_cost)).sum
    total_annual_cost := round2 (subs.map (fun s => s.annual_cost)).sum
    gray_charges_count := (subs.filter (fun s => s.is_gray_charge)).length
    price_increases_count :=
      (subs.filter (fun s => s.has_price_increase)).length
    trial_conversions_count :=
      (subs.filter (fun s => s.is_trial_conversion)).length
    subscriptions := subs }

/-! ### Claim C4: monthly/annual cost round-trip -/

set_option maxHeartbeats 1600000 in
/-- C4 (amended): each emitted Subscription carries the cent-roundings of
the monthly-normalized cost and of twelve times that cost, both computed
from the unrounded latest charge; the two fields are rounded independently
rather than satisfying `annual = monthly * 12` exactly. -/
theorem c4_costs_amended (now : Int) (txns : List Transaction)
    (s : Subscription)
    (hs : s ∈ (detectSubscriptions now txns).subscriptions) :
    ∃ a : ℚ, s.current_amount = round2 a ∧
      s.monthly_cost = round2 (normalizeToMonthlyCost a s.frequency) ∧
      s.annual_cost = round2 (normalizeToMonthlyCost a s.frequency * 12) := by
  simp only [detectSubscriptions] at hs
  rw [mem_sSort] at hs
  rcases List.mem_filterMap.1 hs with ⟨g, _, hbuild⟩
  by_cases hg : subscriptionGates g.2
  · rw [if_pos hg] at hbuild
    cases hbuild
    refine ⟨|(((sortByDate g.2).getLast?).map (fun t => t.amount)).getD 0|,
      ?_, ?_, ?_⟩ <;> simp only [buildSubscription]
  · rw [if_neg hg] at hbuild
    cases hbuild

def mkT (i : Nat) (d : Int) (a : ℚ) (m : String) : Transaction :=
  { transaction_id := i, date := d, amount := a, merchant_name := m }

/-- Three $1 charges 91 days apart: a quarterly subscription whose
monthly-normalized cost 1/3 rounds to 0.33 while 12 times it, exactly 4,
rounds to itself; both values are at least 1/600 away from any half-cent
tie, so the source's binary-double rounding returns the same cents. -/
def c4Txns : List Transaction :=
  [mkT 1 0 (-1) "boxly", mkT 2 91 (-1) "boxly", mkT 3 182 (-1) "boxly"]

set_option maxHeartbeats 1600000 in
theorem c4_interval_avg : intervalAvg c4Txns = 91 := by
  norm_num [intervalAvg, show intervalsOf c4Txns = [91, 91] from by decide,
    meanQ]

set_option maxHeartbeats 1600000 in
/-- Full evaluation of the detector on the C4 input. -/
theorem c4_run : (detectSubscriptions 100 c4Txns).subscriptions
    = [buildSubscription 100 (pystr "boxly") c4Txns] := by
  have hiv : intervalsOf c4Txns = [91, 91] := by decide
  have hgate : subscriptionGates c4Txns := by
    have hvr : intervalVar c4Txns = 0 := by
      norm_num [intervalVar, varQ, hiv, meanQ, intervalAvg]
    have ham : amountsOf c4Txns = [1, 1, 1] := by decide
    have haa : amountAvg c4Txns = 1 := by norm_num [amountAvg, ham, meanQ]
    have hav : amountVar c4Txns = 0 := by
      norm_num [amountVar, varQ, ham, meanQ, amountAvg]
    refine ⟨?_, ?_, ?_, ?_⟩
    · rw [intervalCvLt, if_neg (by rw [hiv]; simp)]
      rw [cvLtQ, c4_interval_avg, hvr, if_pos (by norm_num)]
      norm_num
    · rw [c4_interval_avg]
      norm_num [matchFrequencyBucket]
    · rw [amountCvLt, cvLtQ, haa, hav, if_pos (by norm_num)]
      norm_num
    · rw [haa]
  have hgrp : groupedTransactions c4Txns = [(pystr "boxly", c4Txns)] := by
    decide
  simp only [detectSubscriptions]
  rw [hgrp]
  simp only [List.filterMap, if_pos hgate]
  simp only [sSort, List.foldr, sInsert]

set_option maxHeartbeats 1600000 in
/-- C4 counterexample: the emitted quarterly $1 subscription has
monthly_cost 0.33 and annual_cost 4.00, but 0.33 × 12 = 3.96. -/
theorem c4_annual_roundtrip_fails :
    ((detectSubscriptions 100 c4Txns).subscriptions.map
        (fun s => (s.monthly_cost, s.annual_cost)) = [(33/100, 4)]) ∧
      ¬ ((4 : ℚ) = 33/100 * 12) := by
  have hlast : (sortByDate c4Txns).getLast?
      = some (mkT 3 182 (-1) "boxly") := by
    decide
  have hfreq : matchFrequencyBucket (intervalAvg c4Txns)
      = some ("quarterly", 91) := by
    rw [c4_interval_avg]
    norm_num [matchFrequencyBucket]
  have hmul : monthlyMultiplier "quarterly" = 1/3 := rfl
  have hmc : (buildSubscription 100 (pystr "boxly") c4Txns).monthly_cost
      = 33/100 := by
    simp only [buildSubscription, hlast, hfreq, Option.map_some', Option.getD]
    norm_num [normalizeToMonthlyCost, hmul, mkT, round2, roundTo,
      roundHalfEven]
  have hac : (buildSubscription 100 (pystr "boxly") c4Txns).annual_cost
      = 4 := by
    simp only [buildSubscription, hlast, hfreq, Option.map_some', Option.getD]
    norm_num [normalizeToMonthlyCost, hmul, mkT, round2, roundTo,
      roundHalfEven]
  constructor
  · rw [c4_run]
    simp only [List.map, hmc, hac]
  · norm_num

set_option maxHeartbeats 1600000 in
theorem c4_costs_witness :
    ∃ a : ℚ,
      (buildSubscription 100 (pystr "boxly") c4Txns).current_amount
          = round2 a ∧
        (buildSubscription 100 (pystr "boxly") c4Txns).monthly_cost
          = round2 (normalizeToMonthlyCost a
              (buildSubscription 100 (pystr "boxly") c4Txns).frequency) ∧
        (buildSubscription 100 (pystr "boxly") c4Txns).annual_cost
          = round2 (normalizeToMonthlyCost a
              (buildSubscription 100 (pystr "boxly") c4Txns).frequency * 12) :=
  c4_costs_amended 100 c4Txns _ (by rw [c4_run]; exact List.mem_cons_self _ _)

/-! ### Claim C5: the emission gates of `detect_subscriptions` -/

theorem buildSubscription_merchant (now : Int) (k : List Nat)
    (g : List Transaction) : (buildSubscription now k g).merchant_name = k :=
  rfl

/-- C5: a Subscription for normalized merchant `m` is emitted iff the group
of expense transactions with that normalized merchant has at least two
members, interval CV strictly below 20 (squared comparison; CV counts as
100 when the mean interval is not positive), a mean interval inside one of
the five inclusive frequency windows, amount CV strictly below 15, and mean
charge at least $1.  A group failing any gate yields no Subscription (and
no error: the embedding is total). -/
theorem c5_emission_iff (now : Int) (txns : List Transaction) (m : List Nat) :
    (∃ s ∈ (detectSubscriptions now txns).subscriptions,
        s.merchant_name = m) ↔
      (2 ≤ (merchantGroup txns m).length ∧
        intervalCvLt (merchantGroup txns m) 20 ∧
        (matchFrequencyBucket (intervalAvg (merchantGroup txns m))).isSome ∧
        amountCvLt (merchantGroup txns m) 15 ∧
        1 ≤ amountAvg (merchantGroup txns m)) := by
  constructor
  · rintro ⟨s, hs, hm⟩
    simp only [detectSubscriptions] at hs
    rw [mem_sSort] at hs
    rcases List.mem_filterMap.1 hs with ⟨g, hg, hbuild⟩
    by_cases hgate : subscriptionGates g.2
    · rw [if_pos hgate] at hbuild
      cases hbuild
      rw [buildSubscription_merchant] at hm
      subst hm
      rcases List.mem_filter.1 hg with ⟨hg1, hg2⟩
      rcases List.mem_map.1 hg1 with ⟨k, _, hk⟩
      have hk1 : g.1 = k := by rw [← hk]
      have hk2 : g.2 = merchantGroup txns k := by rw [← hk]
      rw [hk1, ← hk2]
      obtain ⟨h1, h2, h3, h4⟩ := hgate
      exact ⟨by simpa using hg2, h1, h2, h3, h4⟩
    · rw [if_neg hgate] at hbuild
      cases hbuild
  · rintro ⟨hlen, h1, h2, h3, h4⟩
    have hne : merchantGroup txns m ≠ [] := by
      intro h
      rw [h] at hlen
      simp at hlen
    have hmem : m ∈ merchantKeys txns := by
      rcases List.exists_mem_of_ne_nil _ hne with ⟨t, ht⟩
      rcases List.mem_filter.1 ht with ⟨ht1, ht2⟩
      rw [merchantKeys, mem_firstDedup]
      exact List.mem_map.2 ⟨t, ht1, by simpa using ht2⟩
    have hgrp : (m, merchantGroup txns m) ∈ groupedTransactions txns := by
      rw [groupedTransactions]
      refine List.mem_filter.2 ⟨List.mem_map.2 ⟨m, hmem, rfl⟩, by simpa⟩
    refine ⟨buildSubscription now m (merchantGroup txns m), ?_,
      buildSubscription_merchant now m _⟩
    simp only [detectSubscriptions]
    rw [mem_sSort]
    exact List.mem_filterMap.2 ⟨(m, merchantGroup txns m), hgrp,
      by rw [if_pos (show subscriptionGates (merchantGroup txns m) from
        ⟨h1, h2, h3, h4⟩)]⟩

/-! ### Claim C6: the canonical $9.99-every-30±1-days monthly subscription -/

/-- `firstDedup` of a nonempty constant list is the singleton. -/
theorem firstDedup_const [DecidableEq α] {k : α} {l : List α}
    (h : ∀ x ∈ l, x = k) (hne : l ≠ []) : firstDedup l = [k] := by
  have aux : ∀ (t : List α) (acc : List α), (∀ x ∈ t, x ∈ acc) →
      t.foldl (fun acc a => if a ∈ acc then acc else acc ++ [a]) acc = acc := by
    intro t
    induction t with
    | nil => intro acc _; rfl
    | cons b r ih =>
        intro acc hacc
        simp only [List.foldl, if_pos (hacc b (List.mem_cons_self b r))]
        exact ih acc (fun x hx => hacc x (List.mem_cons_of_mem b hx))
  cases l with
  | nil => exact absurd rfl hne
  | cons b r =>
      have hb : b = k := h b (List.mem_cons_self b r)
      unfold firstDedup
      simp only [List.foldl, List.not_mem_nil, if_neg (fun hh => hh),
        List.nil_append]
      rw [hb]
      exact aux r [k] (fun x hx => by
        rw [h x (List.mem_cons_of_mem b hx)]
        exact List.mem_singleton.2 rfl)

/-- Six expense charges of exactly $9.99 at the given dates, same
merchant. -/
def c6Txns (d1 d2 d3 d4 d5 d6 : Int) (m : String) : List Transaction :=
  [mkT 1 d1 (-(999/100)) m, mkT 2 d2 (-(999/100)) m, mkT 3 d3 (-(999/100)) m,
   mkT 4 d4 (-(999/100)) m, mkT 5 d5 (-(999/100)) m, mkT 6 d6 (-(999/100)) m]

set_option maxHeartbeats 1600000 in
/-- C6: for exactly 6 charges of the same merchant, each exactly $9.99,
with consecutive intervals between 29 and 31 days, `detect_subscriptions`
emits exactly one Subscription, with frequency "monthly", confidence score
at least 80 (it is 95), and `needs_attention = False`. -/
theorem c6_monthly_detection (now d1 d2 d3 d4 d5 d6 : Int) (m : String)
    (h1 : 29 ≤ d2 - d1 ∧ d2 - d1 ≤ 31) (h2 : 29 ≤ d3 - d2 ∧ d3 - d2 ≤ 31)
    (h3 : 29 ≤ d4 - d3 ∧ d4 - d3 ≤ 31) (h4 : 29 ≤ d5 - d4 ∧ d5 - d4 ≤ 31)
    (h5 : 29 ≤ d6 - d5 ∧ d6 - d5 ≤ 31) :
    ∃ s : Subscription,
      (detectSubscriptions now (c6Txns d1 d2 d3 d4 d5 d6 m)).subscriptions
        = [s] ∧
      s.frequency = "monthly" ∧ (80 : ℚ) ≤ s.confidence_score ∧
      s.needs_attention = false := by
  set T := c6Txns d1 d2 d3 d4 d5 d6 m with hT
  set k := normalizeMerchantSub (pystr m) with hk
  have hlen : T.length = 6 := by simp [hT, c6Txns]
  have hexp : expenseTxns T = T := by
    simp only [hT, c6Txns, expenseTxns, mkT, List.filter_cons,
      List.filter_nil, decide_eq_true_eq]
    norm_num
  have hkeys : merchantKeys T = [k] := by
    rw [merchantKeys, hexp]
    have hmap : T.map normKey = [k, k, k, k, k, k] := by
      simp only [hT, c6Txns, List.map, normKey, mkT, hk]
    rw [hmap]
    refine firstDedup_const ?_ (by simp)
    intro x hx
    simp only [List.mem_cons, List.not_mem_nil, or_false] at hx
    rcases hx with h | h | h | h | h | h <;> exact h
  have hmg : merchantGroup T k = T := by
    rw [merchantGroup, hexp]
    simp only [hT, c6Txns, List.filter_cons, List.filter_nil, normKey, mkT,
      hk, decide_eq_true_eq, eq_self_iff_true, if_true]
  have hgrp : groupedTransactions T = [(k, T)] := by
    rw [groupedTransactions, hkeys]
    simp only [List.map, hmg, List.filter_cons, List.filter_nil, hlen]
    norm_num
  have hchain : List.Chain' (fun a b => dateLe a b = true) T := by
    simp only [hT, c6Txns, List.chain'_cons, List.chain'_singleton, mkT,
      dateLe, decide_eq_true_eq, and_true]
    omega
  have hsortT : sortByDate T = T := sSort_of_chain dateLe T hchain
  have hiv : intervalsOf T =
      [((d2 - d1 : Int) : ℚ), ((d3 - d2 : Int) : ℚ), ((d4 - d3 : Int) : ℚ),
       ((d5 - d4 : Int) : ℚ), ((d6 - d5 : Int) : ℚ)] := by
    rw [intervalsOf, hsortT]
    simp only [hT, c6Txns, List.tail, List.zip, List.zipWith, List.map, mkT]
  have hb1 : (29 : ℚ) ≤ ((d2 - d1 : Int) : ℚ) ∧ ((d2 - d1 : Int) : ℚ) ≤ 31 :=
    ⟨by exact_mod_cast h1.1, by exact_mod_cast h1.2⟩
  have hb2 : (29 : ℚ) ≤ ((d3 - d2 : Int) : ℚ) ∧ ((d3 - d2 : Int) : ℚ) ≤ 31 :=
    ⟨by exact_mod_cast h2.1, by exact_mod_cast h2.2⟩
  have hb3 : (29 : ℚ) ≤ ((d4 - d3 : Int) : ℚ) ∧ ((d4 - d3 : Int) : ℚ) ≤ 31 :=
    ⟨by exact_mod_cast h3.1, by exact_mod_cast h3.2⟩
  have hb4 : (29 : ℚ) ≤ ((d5 - d4 : Int) : ℚ) ∧ ((d5 - d4 : Int) : ℚ) ≤ 31 :=
    ⟨by exact_mod_cast h4.1, by exact_mod_cast h4.2⟩
  have hb5 : (29 : ℚ) ≤ ((d6 - d5 : Int) : ℚ) ∧ ((d6 - d5 : Int) : ℚ) ≤ 31 :=
    ⟨by exact_mod_cast h5.1, by exact_mod_cast h5.2⟩
  have hA : meanQ [((d2 - d1 : Int) : ℚ), ((d3 - d2 : Int) : ℚ),
      ((d4 - d3 : Int) : ℚ), ((d5 - d4 : Int) : ℚ), ((d6 - d5 : Int) : ℚ)]
      = intervalAvg T := by
    rw [intervalAvg, hiv]
  have hmean : intervalAvg T =
      (((d2 - d1 : Int) : ℚ) + ((d3 - d2 : Int) : ℚ) + ((d4 - d3 : Int) : ℚ)
        + ((d5 - d4 : Int) : ℚ) + ((d6 - d5 : Int) : ℚ)) / 5 := by
    rw [intervalAvg, hiv]
    simp only [meanQ, List.sum_cons, List.sum_nil, List.length_cons,
      List.length_nil]
    norm_num
  have havg_lb : (29 : ℚ) ≤ intervalAvg T := by
    rw [hmean]; linarith [hb1.1, hb2.1, hb3.1, hb4.1, hb5.1]
  have havg_ub : intervalAvg T ≤ 31 := by
    rw [hmean]; linarith [hb1.2, hb2.2, hb3.2, hb4.2, hb5.2]
  have hsq : ∀ g : ℚ, 29 ≤ g → g ≤ 31 → (g - intervalAvg T) ^ 2 ≤ 4 := by
    intro g hg1 hg2
    have hx1 : -2 ≤ g - intervalAvg T := by linarith
    have hx2 : g - intervalAvg T ≤ 2 := by linarith
    nlinarith
  have hvar_le : intervalVar T ≤ 4 := by
    have hgoal : intervalVar T = meanQ
        ([((d2 - d1 : Int) : ℚ), ((d3 - d2 : Int) : ℚ),
          ((d4 - d3 : Int) : ℚ), ((d5 - d4 : Int) : ℚ),
          ((d6 - d5 : Int) : ℚ)].map
          (fun x => (x - intervalAvg T) ^ 2)) := by
      rw [intervalVar, varQ, hiv, hA]
    rw [hgoal]
    simp only [List.map, meanQ, List.sum_cons, List.sum_nil,
      List.length_cons, List.length_nil]
    have q1 := hsq _ hb1.1 hb1.2
    have q2 := hsq _ hb2.1 hb2.2
    have q3 := hsq _ hb3.1 hb3.2
    have q4 := hsq _ hb4.1 hb4.2
    have q5 := hsq _ hb5.1 hb5.2
    push_cast at q1 q2 q3 q4 q5 ⊢
    norm_num
    linarith
  have hivne : intervalsOf T ≠ [] := by rw [hiv]; simp
  have havg_pos : (0 : ℚ) < intervalAvg T := by linarith
  have hsq_lb : (841 : ℚ) ≤ intervalAvg T ^ 2 := by nlinarith
  have hicv10 : intervalCvLt T 10 := by
    simp only [intervalCvLt, if_neg hivne, cvLtQ, if_pos havg_pos]
    nlinarith
  have hicv20 : intervalCvLt T 20 := by
    simp only [intervalCvLt, if_neg hivne, cvLtQ, if_pos havg_pos]
    nlinarith
  have hbucket : matchFrequencyBucket (intervalAvg T) = some ("monthly", 30) := by
    simp only [matchFrequencyBucket]
    rw [if_neg (by rintro ⟨-, h⟩; linarith),
      if_neg (by rintro ⟨-, h⟩; linarith),
      if_pos ⟨by linarith, by linarith⟩]
  have habs : |(-(999 / 100) : ℚ)| = 999 / 100 := by
    rw [abs_neg, abs_of_pos (by norm_num : (0 : ℚ) < 999 / 100)]
  have hamts : amountsOf T = [999 / 100, 999 / 100, 999 / 100, 999 / 100,
      999 / 100, 999 / 100] := by
    simp only [amountsOf, hT, c6Txns, List.map, mkT, habs]
  have hamean : amountAvg T = 999 / 100 := by
    rw [amountAvg, hamts]
    simp only [meanQ, List.sum_cons, List.sum_nil, List.length_cons,
      List.length_nil]
    norm_num
  have hamvar : amountVar T = 0 := by
    rw [amountVar, varQ, hamts]
    rw [show meanQ [(999 / 100 : ℚ), 999 / 100, 999 / 100, 999 / 100,
        999 / 100, 999 / 100] = 999 / 100 from by
      simp only [meanQ, List.sum_cons, List.sum_nil, List.length_cons,
        List.length_nil]
      norm_num]
    simp only [List.map, meanQ, List.sum_cons, List.sum_nil,
      List.length_cons, List.length_nil]
    norm_num
  have hacv5 : amountCvLt T 5 := by
    simp only [amountCvLt, cvLtQ, hamean, hamvar]
    norm_num
  have hacv15 : amountCvLt T 15 := by
    simp only [amountCvLt, cvLtQ, hamean, hamvar]
    norm_num
  have hgates : subscriptionGates T :=
    ⟨hicv20, by rw [hbucket]; rfl, hacv15, by rw [hamean]; norm_num⟩
  have hconf : confidenceScore T = 95 := by
    simp only [confidenceScore, if_pos hicv10, if_pos hacv5, hlen]
    norm_num [min_def]
  have hpinc : detectPriceIncrease T = none := by
    simp only [detectPriceIncrease, hlen, hsortT]
    rw [if_neg (by norm_num)]
    have hglast : T.getLast? = some (mkT 6 d6 (-(999 / 100)) m) := by
      simp [hT, c6Txns, List.getLast?]
    rw [hglast]
    dsimp only
    have hdrop : T.dropLast.map (fun t => |t.amount|) =
        [999 / 100, 999 / 100, 999 / 100, 999 / 100, 999 / 100] := by
      simp only [hT, c6Txns, List.dropLast, List.map, mkT, habs]
    rw [hdrop]
    rw [show meanQ [(999 / 100 : ℚ), 999 / 100, 999 / 100, 999 / 100,
        999 / 100] = 999 / 100 from by
      simp only [meanQ, List.sum_cons, List.sum_nil, List.length_cons,
        List.length_nil]
      norm_num]
    simp only [mkT]
    rw [habs]
    norm_num
  have hgray : isGrayCharge k (amountAvg T) T.length = false := by
    rw [hlen]
    rfl
  have htrial : detectTrialConversion now T = false := by
    simp only [detectTrialConversion, hlen]
    rfl
  refine ⟨buildSubscription now k T, ?_, ?_, ?_, ?_⟩
  · simp only [detectSubscriptions, hgrp, List.filterMap_cons,
      List.filterMap_nil]
    rw [if_pos hgates]
    rfl
  · simp only [buildSubscription, hbucket]
    rfl
  · simp only [buildSubscription, hconf]
    rw [show round1 (95 : ℚ) = 95 from by
      norm_num [round1, roundTo, roundHalfEven]]
    norm_num
  · simp only [buildSubscription, hpinc, hgray, htrial]
    rfl

/-- C6 witness: charges on days 0, 30, 60, 90, 120, 150. -/
theorem c6_monthly_witness :
    ∃ s : Subscription,
      (detectSubscriptions 200 (c6Txns 0 30 60 90 120 150 "nx")).subscriptions
        = [s] ∧
      s.frequency = "monthly" ∧ (80 : ℚ) ≤ s.confidence_score ∧
      s.needs_attention = false :=
  c6_monthly_detection 200 0 30 60 90 120 150 "nx" (by decide) (by decide)
    (by decide) (by decide) (by decide)

/-! ### DataAggregator dataframe and derived metrics (spending/aggregator.py)

The pandas `date` column is modelled by the `Int` day index of the
transaction (days since 1970-01-01); `pd.to_datetime` on it is the
identity.  Calendar features come from the standard era-based civil
calendar algorithm, written with floor division. -/

/-- Civil date (year, month, day) of a day index. -/
def civilFromDays (z0 : Int) : Int × Int × Int :=
  let z := z0 + 719468
  let era := z / 146097
  let doe := z - era * 146097
  let yoe := (doe - doe / 1460 + doe / 36524 - doe / 146096) / 365
  let y := yoe + era * 400
  let doy := doe - (365 * yoe + yoe / 4 - yoe / 100)
  let mp := (5 * doy + 2) / 153
  let d := doy - (153 * mp + 2) / 5 + 1
  let m := mp + (if mp < 10 then 3 else -9)
  (y + (if m ≤ 2 then 1 else 0), m, d)

/-- Day index of a civil date (inverse of `civilFromDays`). -/
def daysFromCivil (y m d : Int) : Int :=
  let y2 := y - (if m ≤ 2 then 1 else 0)
  let era := y2 / 400
  let yoe := y2 - era * 400
  let mp := (m + 9) % 12
  let doy := (153 * mp + 2) / 5 + d - 1
  let doe := yoe * 365 + yoe / 4 - yoe / 100 + doy
  era * 146097 + doe - 719468

def yearOf (z : Int) : Int := (civilFromDays z).1

def monthOf (z : Int) : Int := (civilFromDays z).2.1

/-- pandas `dt.dayofweek`: Monday = 0; day 0 (1970-01-01) was a Thursday. -/
def dayOfWeek (z : Int) : Int := (z + 3) % 7

/-- ISO-8601 week number (`dt.isocalendar().week`): the week of a date is
the week of its Thursday, numbered from that Thursday's January 1st. -/
def isoWeekOf (z : Int) : Int :=
  let thursday := z + 3 - dayOfWeek z
  (thursday - daysFromCivil (yearOf thursday) 1 1) / 7 + 1

def dayNameL (w : Int) : List Nat :=
  if w = 0 then pystr "Monday" else if w = 1 then pystr "Tuesday"
  else if w = 2 then pystr "Wednesday" else if w = 3 then pystr "Thursday"
  else if w = 4 then pystr "Friday" else if w = 5 then pystr "Saturday"
  else pystr "Sunday"

/-- Decimal digit string (character codes) of a natural number. -/
def natDecL (n : Nat) : List Nat := (Nat.toDigits 10 n).map Char.toNat

def intDecL (i : Int) : List Nat :=
  if i < 0 then 45 :: natDecL i.natAbs else natDecL i.natAbs

/-- `str.zfill(2)`: left-pad with '0' to length 2. -/
def zfill2 (s : List Nat) : List Nat :=
  List.replicate (2 - s.length) 48 ++ s

/-- A pandas cell value. -/
inductive PDVal where
  | vInt : Int → PDVal
  | vRat : ℚ → PDVal
  | vStr : List Nat → PDVal
  | vBool : Bool → PDVal
  deriving DecidableEq, Repr

/-- A pandas DataFrame: named columns in insertion order. -/
structure PandasDF where
  cols : List (String × List PDVal)
  deriving DecidableEq, Repr

/-- `pd.DataFrame(data)` from a list of records: the columns are the record
keys in first-appearance order (so a frame built from zero records has no
columns); each column holds the values under its key. -/
def mkDF (data : List (List (String × PDVal))) : PandasDF :=
  { cols := (firstDedup (data.map (fun r => r.map Prod.fst)).flatten).map
      (fun k => (k, data.filterMap
        (fun r => (r.find? (fun p => decide (p.1 = k))).map Prod.snd))) }

/-- `df[c]`: reading a missing column raises `KeyError`. -/
def dfGet (df : PandasDF) (c : String) : Except (List Nat) (List PDVal) :=
  match df.cols.find? (fun p => decide (p.1 = c)) with
  | some p => Except.ok p.2
  | none => Except.error (pystr "KeyError: " ++ pystr c)

/-- `df[c] = v`: replace the column if present, else append it. -/
def dfSet (df : PandasDF) (c : String) (v : List PDVal) : PandasDF :=
  if df.cols.any (fun p => decide (p.1 = c)) then
    { cols := df.cols.map (fun p => if p.1 = c then (c, v) else p) }
  else { cols := df.cols ++ [(c, v)] }

/-- Primary category: `categories[0] if categories else 'OTHER'`. -/
def primaryCat (t : Transaction) : String := t.category.headD "OTHER"

/-- The record `_create_dataframe` appends for one transaction
(`payment_channel` and `pending`, which no aggregation in scope reads, are
not modelled, as on `Transaction`). -/
def rowOfTxn (t : Transaction) : List (String × PDVal) :=
  [("transaction_id", PDVal.vInt t.transaction_id),
   ("date", PDVal.vInt t.date),
   ("amount", PDVal.vRat t.amount),
   ("merchant_name", PDVal.vStr (normalizeMerchantAgg (pystr t.merchant_name))),
   ("category", PDVal.vStr (pystr (primaryCat t)))]

def pdMapInt (f : Int → PDVal) : PDVal → PDVal
  | PDVal.vInt d => f d
  | v => v

def pdMapRat (f : ℚ → PDVal) : PDVal → PDVal
  | PDVal.vRat a => f a
  | v => v

/-- `_create_dataframe`: build the frame from the transaction records, then
add the date-feature, period-key and income columns in source order.  Each
`df['x'] = f(df['y'])` statement first reads column `y`, so on an empty
transaction list the very first statement
(`df['date'] = pd.to_datetime(df['date'])`) raises `KeyError`. -/
def createDataFrame (txns : List Transaction) :
    Except (List Nat) PandasDF := do
  let df := mkDF (txns.map rowOfTxn)
  let df := dfSet df "date" (← dfGet df "date")
  let df := dfSet df "year"
    ((← dfGet df "date").map (pdMapInt (fun d => PDVal.vInt (yearOf d))))
  let df := dfSet df "quarter"
    ((← dfGet df "date").map (pdMapInt
      (fun d => PDVal.vInt ((monthOf d - 1) / 3 + 1))))
  let df := dfSet df "month"
    ((← dfGet df "date").map (pdMapInt (fun d => PDVal.vInt (monthOf d))))
  let df := dfSet df "week"
    ((← dfGet df "date").map (pdMapInt (fun d => PDVal.vInt (isoWeekOf d))))
  let df := dfSet df "day_of_week"
    ((← dfGet df "date").map (pdMapInt (fun d => PDVal.vInt (dayOfWeek d))))
  let df := dfSet df "day_name"
    ((← dfGet df "date").map (pdMapInt
      (fun d => PDVal.vStr (dayNameL (dayOfWeek d)))))
  let df := dfSet df "is_weekend"
    ((← dfGet df "date").map (pdMapInt
      (fun d => PDVal.vBool (decide (5 ≤ dayOfWeek d)))))
  let df := dfSet df "year_key"
    ((← dfGet df "date").map (pdMapInt
      (fun d => PDVal.vStr (intDecL (yearOf d)))))
  let df := dfSet df "quarter_key"
    ((← dfGet df "date").map (pdMapInt
      (fun d => PDVal.vStr (intDecL (yearOf d) ++ pystr "-Q" ++
        intDecL ((monthOf d - 1) / 3 + 1)))))
  let df := dfSet df "month_key"
    ((← dfGet df "date").map (pdMapInt
      (fun d => PDVal.vStr (intDecL (yearOf d) ++ [45] ++
        zfill2 (intDecL (monthOf d))))))
  let df := dfSet df "week_key"
    ((← dfGet df "date").map (pdMapInt
      (fun d => PDVal.vStr (intDecL (yearOf d) ++ pystr "-W" ++
        zfill2 (intDecL (isoWeekOf d))))))
  let df := dfSet df "is_income"
    ((← dfGet df "amount").map (pdMapRat
      (fun a => PDVal.vBool (decide (0 < a)))))
  let df := dfSet df "abs_amount"
    ((← dfGet df "amount").map (pdMapRat (fun a => PDVal.vRat |a|)))
  pure df

/-! The aggregations and derived metrics used by the claims in scope read
the frame's rows directly; they are embedded as functions of the
transaction list, with each row's derived features recomputed where
needed (a row of the frame is its transaction plus the feature columns
above). -/

/-- `df['is_income']`: strictly positive amount. -/
def isIncomeT (t : Transaction) : Bool := decide (0 < t.amount)

/-- `spending_df = self.df[~self.df['is_income']]`. -/
def spendingRows (txns : List Transaction) : List Transaction :=
  txns.filter (fun t => !isIncomeT t)

def listMaxI : List Int → Int
  | [] => 0
  | a :: r => r.foldl max a

/-- `today`: the latest transaction date (`datetime.now()`, modelled by
`now`, when there are no transactions). -/
def todayOf (now : Int) (txns : List Transaction) : Int :=
  if txns = [] then now else listMaxI (txns.map (fun t => t.date))

/-- `current_df` of `get_rolling_30day_totals`: spending in the rolling
window `[today - 30, today]` (both bounds inclusive). -/
def currentWindowDf (now : Int) (txns : List Transaction) :
    List Transaction :=
  txns.filter (fun t => decide (todayOf now txns - 30 ≤ t.date) &&
    decide (t.date ≤ todayOf now txns) && !isIncomeT t)

/-- `previous_df`: spending in `[today - 60, today - 30]` (both bounds
inclusive). -/
def previousWindowDf (now : Int) (txns : List Transaction) :
    List Transaction :=
  txns.filter (fun t => decide (todayOf now txns - 60 ≤ t.date) &&
    decide (t.date ≤ todayOf now txns - 30) && !isIncomeT t)

def absSum (l : List Transaction) : ℚ := (l.map (fun t => |t.amount|)).sum

/-- `current_total` of `get_rolling_30day_totals`. -/
def currentTotal30 (now : Int) (txns : List Transaction) : ℚ :=
  absSum (currentWindowDf now txns)

/-- `previous_total` of `get_rolling_30day_totals`. -/
def previousTotal30 (now : Int) (txns : List Transaction) : ℚ :=
  absSum (previousWindowDf now txns)

def strLe (a b : String) : Bool := decide (a ≤ b)

/-- Spending total of one category in the current window. -/
def currentCatAmount (now : Int) (txns : List Transaction) (c : String) :
    ℚ :=
  absSum ((currentWindowDf now txns).filter
    (fun t => decide (primaryCat t = c)))

/-- `current_by_category`: groupby sorts its keys, so the dict iterates the
window's categories in sorted order, each with its spending total. -/
def currentByCategory (now : Int) (txns : List Transaction) :
    List (String × ℚ) :=
  (sSort strLe (firstDedup ((currentWindowDf now txns).map primaryCat))).map
    (fun c => (c, currentCatAmount now txns c))

/-- Calendar month key (year, month) of a day index; the source's
`'YYYY-MM'` strings order and compare exactly like these pairs. -/
def monthKeyOf (z : Int) : Int × Int := ((civilFromDays z).1, (civilFromDays z).2.1)

def pairLeZ (a b : Int × Int) : Bool :=
  decide (a.1 < b.1) || (decide (a.1 = b.1) && decide (a.2 ≤ b.2))

/-- `by_month.sorted_keys`: the distinct month keys of spending rows,
sorted. -/
def sortedMonthKeys (txns : List Transaction) : List (Int × Int) :=
  sSort pairLeZ (firstDedup ((spendingRows txns).map
    (fun t => monthKeyOf t.date)))

/-- `num_months`: `account_age_months = max(1, len(by_month sorted_keys))`
when there are transactions, else the default 1. -/
def numMonthsOf (txns : List Transaction) : Nat :=
  if txns = [] then 1 else max 1 (sortedMonthKeys txns).length

/-- Lifetime spending total of one category (`by_category`). -/
def categoryLifetimeTotal (txns : List Transaction) (c : String) : ℚ :=
  absSum ((spendingRows txns).filter (fun t => decide (primaryCat t = c)))

/-- `category_monthly_averages.get(category, 0)`: lifetime category total
over the lifetime month count for categories with spending, else 0. -/
def catMonthlyAvgGet (txns : List Transaction) (c : String) : ℚ :=
  if c ∈ (spendingRows txns).map primaryCat then
    (if 0 < numMonthsOf txns then
      categoryLifetimeTotal txns c / (numMonthsOf txns : ℚ) else 0)
  else 0

/-! ### ComprehensiveTriggerDetector: category_above_average
(insights/comprehensive_trigger_detector.py, the final loop of
`_detect_monthly_changes`; the earlier branches of that function emit only
`monthly_spending_spike` / `monthly_spending_win` triggers, so the
`category_above_average` triggers are exactly this loop's). -/

def detectCategoryAboveAverage (now : Int) (txns : List Transaction) :
    List Trigger :=
  (currentByCategory now txns).filterMap (fun p =>
    if catMonthlyAvgGet txns p.1 = 0 ∨ p.2 < 100 then none
    else if 40 < (p.2 - catMonthlyAvgGet txns p.1) /
        catMonthlyAvgGet txns p.1 * 100 ∧ 100 < p.2 then
      some { type := "category_above_average", category := some p.1,
             this_month := some p.2,
             average := some (catMonthlyAvgGet txns p.1),
             percent_change := some ((p.2 - catMonthlyAvgGet txns p.1) /
               catMonthlyAvgGet txns p.1 * 100),
             dollar_change := some (p.2 - catMonthlyAvgGet txns p.1) }
    else none)

/-! ### Claim C2: the empty transaction list -/

/-- C2: constructing the Aggregator on zero transactions does not return
empty/zero structures without erroring: `pd.DataFrame([])` has no columns,
so the constructor's first feature statement reads the missing `date`
column and raises `KeyError` before any aggregation can run. -/
theorem c2_empty_raises :
    createDataFrame [] = Except.error (pystr "KeyError: date") := rfl

/-! ### Claim C10: the rolling windows share their boundary day -/

def c10Txns : List Transaction := [mkT 1 70 (-5) "a", mkT 2 40 (-7) "a"]

/-- C10: a spending transaction dated exactly 30 days before the latest
transaction satisfies both rolling-window filters (`date >= today-30` and
`date <= today-30`), so its amount is counted in both `current_total` and
`previous_total` of `get_rolling_30day_totals`. -/
theorem c10_windows_overlap (now : Int) (txns : List Transaction)
    (t : Transaction) (ht : t ∈ txns)
    (hd : t.date = todayOf now txns - 30) (hi : isIncomeT t = false) :
    t ∈ currentWindowDf now txns ∧ t ∈ previousWindowDf now txns ∧
    |t.amount| ≤ currentTotal30 now txns ∧
    |t.amount| ≤ previousTotal30 now txns := by
  have h1 : t ∈ currentWindowDf now txns := by
    refine List.mem_filter.2 ⟨ht, ?_⟩
    simp only [hd, hi, Bool.not_false, Bool.and_true, Bool.and_eq_true,
      decide_eq_true_eq]
    omega
  have h2 : t ∈ previousWindowDf now txns := by
    refine List.mem_filter.2 ⟨ht, ?_⟩
    simp only [hd, hi, Bool.not_false, Bool.and_true, Bool.and_eq_true,
      decide_eq_true_eq]
    omega
  refine ⟨h1, h2, ?_, ?_⟩
  · exact List.single_le_sum
      (fun x hx => by
        rcases List.mem_map.1 hx with ⟨u, -, hu⟩
        rw [← hu]; exact abs_nonneg _) _
      (List.mem_map_of_mem _ h1)
  · exact List.single_le_sum
      (fun x hx => by
        rcases List.mem_map.1 hx with ⟨u, -, hu⟩
        rw [← hu]; exact abs_nonneg _) _
      (List.mem_map_of_mem _ h2)

/-- C10 witness: two charges 30 days apart; the earlier one lands in both
windows. -/
theorem c10_windows_overlap_witness :
    mkT 2 40 (-7) "a" ∈ currentWindowDf 0 c10Txns ∧
    mkT 2 40 (-7) "a" ∈ previousWindowDf 0 c10Txns ∧
    |(mkT 2 40 (-7) "a").amount| ≤ currentTotal30 0 c10Txns ∧
    |(mkT 2 40 (-7) "a").amount| ≤ previousTotal30 0 c10Txns :=
  c10_windows_overlap 0 c10Txns (mkT 2 40 (-7) "a") (by decide) (by decide)
    (by decide)

/-! ### Claim C7: the category_above_average rule -/

/-- C7 (amended): a `category_above_average` trigger is emitted for a
category exactly when the category has spending in the current rolling
30-day window, its lifetime monthly average (lifetime category total over
the account-age month count) is nonzero, the window amount is strictly
greater than $100, and it exceeds that lifetime average by more than
40%. -/
theorem c7_above_average_amended (now : Int) (txns : List Transaction)
    (c : String) :
    (∃ t ∈ detectCategoryAboveAverage now txns, t.category = some c) ↔
    ((∃ u ∈ currentWindowDf now txns, primaryCat u = c) ∧
      catMonthlyAvgGet txns c ≠ 0 ∧ 100 < currentCatAmount now txns c ∧
      40 < (currentCatAmount now txns c - catMonthlyAvgGet txns c) /
        catMonthlyAvgGet txns c * 100) := by
  constructor
  · rintro ⟨t, ht, hc⟩
    rcases List.mem_filterMap.1 ht with ⟨p, hp, hf⟩
    rcases List.mem_map.1 hp with ⟨key, hkey, hpk⟩
    by_cases hg1 : catMonthlyAvgGet txns p.1 = 0 ∨ p.2 < 100
    · rw [if_pos hg1] at hf; cases hf
    · rw [if_neg hg1] at hf
      by_cases hg2 : 40 < (p.2 - catMonthlyAvgGet txns p.1) /
          catMonthlyAvgGet txns p.1 * 100 ∧ 100 < p.2
      · rw [if_pos hg2] at hf
        cases hf
        simp only [Option.some.injEq] at hc
        have hp1 : p.1 = key := by rw [← hpk]
        have hp2 : p.2 = currentCatAmount now txns key := by rw [← hpk]
        have hk2 : key = c := by rw [← hp1]; exact hc
        rw [hp1, hp2, hk2] at hg1 hg2
        push_neg at hg1
        rw [hk2] at hkey
        rw [mem_sSort] at hkey
        rcases List.mem_map.1 ((mem_firstDedup _ _).1 hkey) with ⟨u, hu, hcu⟩
        exact ⟨⟨u, hu, hcu⟩, hg1.1, hg2.2, hg2.1⟩
      · rw [if_neg hg2] at hf; cases hf
  · rintro ⟨⟨u, hu, hcu⟩, havg, hamt, hpct⟩
    have hkey : c ∈ sSort strLe
        (firstDedup ((currentWindowDf now txns).map primaryCat)) := by
      rw [mem_sSort]
      exact (mem_firstDedup _ _).2 (List.mem_map.2 ⟨u, hu, hcu⟩)
    have hp : (c, currentCatAmount now txns c) ∈ currentByCategory now txns :=
      List.mem_map.2 ⟨c, hkey, rfl⟩
    refine ⟨{ type := "category_above_average", category := some c,
              this_month := some (currentCatAmount now txns c),
              average := some (catMonthlyAvgGet txns c),
              percent_change := some ((currentCatAmount now txns c -
                catMonthlyAvgGet txns c) / catMonthlyAvgGet txns c * 100),
              dollar_change := some (currentCatAmount now txns c -
                catMonthlyAvgGet txns c) },
      List.mem_filterMap.2 ⟨(c, currentCatAmount now txns c), hp, ?_⟩, rfl⟩
    rw [if_neg (by push_neg; exact ⟨havg, by linarith⟩), if_pos ⟨hpct, hamt⟩]

def mkTC (i : Nat) (d : Int) (a : ℚ) (m c : String) : Transaction :=
  { transaction_id := i, date := d, amount := a, merchant_name := m,
    category := [c] }

/-- Modelled from the spec's words for C7, not from the code: the
category's 3-month average is its average monthly spending over the 90
days up to `today`, and the rule fires when the window amount is at least
$100 and exceeds that average by more than 40%. -/
def specCatAboveAverage (now : Int) (txns : List Transaction)
    (c : String) : Prop :=
  100 ≤ currentCatAmount now txns c ∧
  currentCatAmount now txns c >
    absSum ((txns.filter (fun t => decide (todayOf now txns - 90 ≤ t.date)
      && decide (t.date ≤ todayOf now txns) && !isIncomeT t)).filter
      (fun t => decide (primaryCat t = c))) / 3 * (14 / 10)

def c7Txns : List Transaction :=
  [mkTC 1 5 (-10) "x" "Dining", mkTC 2 34 (-10) "x" "Dining",
   mkTC 3 65 (-100) "x" "Dining"]

set_option maxHeartbeats 1600000 in
/-- C7 counterexample: three Dining charges in three calendar months with
the current window amount exactly $100.  The spec's reading (window amount
at least $100, more than 40% above the 3-month average) demands a trigger,
but the code requires strictly more than $100 and emits nothing. -/
theorem c7_above_average_fails :
    specCatAboveAverage 0 c7Txns "Dining" ∧
    detectCategoryAboveAverage 0 c7Txns = [] := by
  have habs10 : |(-10 : ℚ)| = 10 := by
    rw [abs_neg, abs_of_pos (show (0 : ℚ) < 10 by norm_num)]
  have habs100 : |(-100 : ℚ)| = 100 := by
    rw [abs_neg, abs_of_pos (show (0 : ℚ) < 100 by norm_num)]
  have hwin : currentWindowDf 0 c7Txns = [mkTC 3 65 (-100) "x" "Dining"] := by
    decide
  have hcur : currentCatAmount 0 c7Txns "Dining" = 100 := by
    rw [currentCatAmount, hwin]
    rw [show ([mkTC 3 65 (-100) "x" "Dining"].filter
        (fun t => decide (primaryCat t = "Dining")))
        = [mkTC 3 65 (-100) "x" "Dining"] from by decide]
    simp only [absSum, List.map, mkTC, List.sum_cons, List.sum_nil]
    rw [habs100]
    norm_num
  have hlife : categoryLifetimeTotal c7Txns "Dining" = 120 := by
    rw [categoryLifetimeTotal,
      show ((spendingRows c7Txns).filter
        (fun t => decide (primaryCat t = "Dining"))) = c7Txns from by decide]
    simp only [absSum, c7Txns, List.map, mkTC, List.sum_cons, List.sum_nil]
    rw [habs10, habs100]
    norm_num
  have havg : catMonthlyAvgGet c7Txns "Dining" = 40 := by
    rw [catMonthlyAvgGet, if_pos (by decide), if_pos (by decide),
      hlife, show numMonthsOf c7Txns = 3 from by decide]
    norm_num
  constructor
  · refine ⟨by rw [hcur], ?_⟩
    rw [hcur]
    rw [show (c7Txns.filter (fun t => decide (todayOf 0 c7Txns - 90 ≤ t.date)
        && decide (t.date ≤ todayOf 0 c7Txns) && !isIncomeT t))
        = c7Txns from by decide]
    rw [show (c7Txns.filter (fun t => decide (primaryCat t = "Dining")))
        = c7Txns from by decide]
    simp only [absSum, c7Txns, List.map, mkTC, List.sum_cons, List.sum_nil]
    rw [habs10, habs100]
    norm_num
  · rw [detectCategoryAboveAverage, currentByCategory,
      show sSort strLe (firstDedup ((currentWindowDf 0 c7Txns).map
        primaryCat)) = ["Dining"] from by decide]
    simp only [List.map, List.filterMap_cons, List.filterMap_nil]
    rw [if_neg (by rw [havg, hcur]; norm_num),
      if_neg (by rw [hcur]; rintro ⟨-, h⟩; norm_num at h)]
